import Mathlib

/-!
# Shelltown world-state engine: a shallow embedding

This file embeds the core of `src/main.py` (the ShellTown server) in Lean:
the collision grid, the A* pathfinder, the rate limiter, and the registry
operations join, move, chat, leave together with snapshot save/restore.

Modelling conventions:
* Python ints are `Int`; timestamps (Python floats holding `time.time()`
  values) are `Rat`; strings are `String`.
* Python dicts whose iteration order matters (`agents`) are modelled as
  insertion-ordered association lists with in-place update, which is
  exactly the `dict` mutation semantics.  Dicts and sets that the source
  only ever reads pointwise (`g_score`, `f_score`, `came_from`,
  `visited`) are modelled as packed-key binary tries; the lookup laws
  proven below (`NTrie.find?_insert_self`, `NTrie.find?_insert_of_ne`,
  `posKey_inj`) show the tries realize dict get/set semantics.
* Comparisons in the hot path are Boolean functions (`intEq`, `intLt`,
  `posEq`) together with lemmas equating them to propositional
  equality and order, so the embedding both evaluates and supports
  proofs.
* The feature-layer attribute bag (needs, mood, stats, achievements,
  memories, events, activity feed) only mutates fields that no claim
  reads; those fields, and the code paths that only touch them, are
  omitted and each omission is noted where it occurs.
-/

namespace Shelltown

/-! ## Boolean primitives over Int -/

/-- Grid positions: pairs of Python ints. -/
abbrev Pos := Int × Int

/-- Boolean equality test on `Int` (Python ==). -/
def intEq : Int → Int → Bool
  | .ofNat a, .ofNat b => a == b
  | .negSucc a, .negSucc b => a == b
  | _, _ => false

/-- Boolean strict order test on `Int` (Python <). -/
def intLt : Int → Int → Bool
  | .ofNat a, .ofNat b => a.blt b
  | .ofNat _, .negSucc _ => false
  | .negSucc _, .ofNat _ => true
  | .negSucc a, .negSucc b => b.blt a

/-- Boolean equality test on positions. -/
def posEq (p q : Pos) : Bool := intEq p.1 q.1 && intEq p.2 q.2

theorem intEq_iff {a b : Int} : intEq a b = true ↔ a = b := by
  cases a <;> cases b <;> simp [intEq]

theorem intLt_iff {a b : Int} : intLt a b = true ↔ a < b := by
  cases a with
  | ofNat a =>
    cases b with
    | ofNat b =>
      simp only [intLt, Nat.blt_eq, Int.ofNat_eq_coe]
      exact Int.ofNat_lt.symm
    | negSucc b =>
      simp only [intLt, Bool.false_eq_true, false_iff, Int.ofNat_eq_coe,
        Int.negSucc_eq, not_lt]
      omega
  | negSucc a =>
    cases b with
    | ofNat b =>
      simp only [intLt, Int.ofNat_eq_coe, Int.negSucc_eq, true_iff]
      omega
    | negSucc b =>
      simp only [intLt, Nat.blt_eq, Int.negSucc_eq]
      constructor
      · intro h; omega
      · intro h; omega

theorem posEq_iff {p q : Pos} : posEq p q = true ↔ p = q := by
  cases p; cases q
  simp [posEq, intEq_iff, Prod.ext_iff]

/-! ## Packed position keys and binary tries

The Python dicts keyed by `(x, y)` tuples are modelled as tries over an
injective `Nat` encoding of positions. -/

/-- Injective encoding of `Int` into `Nat`. -/
def zig : Int → Nat
  | .ofNat n => 2 * n
  | .negSucc n => 2 * n + 1

/-- Injective encoding of a position into a single `Nat` key. -/
def posKey (p : Pos) : Nat := Nat.pair (zig p.1) (zig p.2)

theorem zig_inj {a b : Int} (h : zig a = zig b) : a = b := by
  cases a <;> cases b <;>
    simp only [zig, Int.ofNat_eq_coe, Int.natCast_inj, Int.negSucc.injEq] at h ⊢ <;>
    omega

theorem posKey_inj {p q : Pos} (h : posKey p = posKey q) : p = q := by
  unfold posKey at h
  rw [Nat.pair_eq_pair] at h
  cases p; cases q
  simp only [Prod.ext_iff]
  exact ⟨zig_inj h.1, zig_inj h.2⟩

/-- Binary tries over `Nat` keys: the model of the position-keyed
Python dicts and sets read only via get/contains. -/
inductive NTrie (α : Type) where
  | leaf : NTrie α
  | node : Option α → NTrie α → NTrie α → NTrie α
deriving DecidableEq

namespace NTrie

/-- Fuelled lookup; the fuel only needs to exceed the key, and the
wrapper `find?` always supplies enough. -/
def findA {α : Type} : Nat → NTrie α → Nat → Option α
  | 0, _, _ => none
  | _, .leaf, _ => none
  | fuel + 1, .node v l r, k =>
    if k = 0 then v
    else if k % 2 = 1 then findA fuel l ((k - 1) / 2)
    else findA fuel r ((k - 2) / 2)

/-- Lookup of a key, the model of dict get / set membership. -/
def find? {α : Type} (t : NTrie α) (k : Nat) : Option α :=
  findA (k + 1) t k

/-- Fuelled insertion; as with `findA`, fuel beyond the key is enough. -/
def insertA {α : Type} : Nat → NTrie α → Nat → α → NTrie α
  | 0, t, _, _ => t
  | fuel + 1, .leaf, k, a =>
    if k = 0 then .node (some a) .leaf .leaf
    else if k % 2 = 1 then .node none (insertA fuel .leaf ((k - 1) / 2) a) .leaf
    else .node none .leaf (insertA fuel .leaf ((k - 2) / 2) a)
  | fuel + 1, .node v l r, k, a =>
    if k = 0 then .node (some a) l r
    else if k % 2 = 1 then .node v (insertA fuel l ((k - 1) / 2) a) r
    else .node v l (insertA fuel r ((k - 2) / 2) a)

/-- Insertion of a binding, the model of dict set / set add. -/
def insert {α : Type} (t : NTrie α) (k : Nat) (a : α) : NTrie α :=
  insertA (k + 1) t k a

theorem findA_fuel {α : Type} :
    ∀ (k : Nat) (t : NTrie α) (f₁ f₂ : Nat), k < f₁ → k < f₂ →
      findA f₁ t k = findA f₂ t k := by
  intro k
  induction k using Nat.strong_induction_on with
  | _ k ih =>
    intro t f₁ f₂ h₁ h₂
    match f₁, f₂ with
    | f₁ + 1, f₂ + 1 =>
      cases t with
      | leaf => rfl
      | node v l r =>
        by_cases hk : k = 0
        · simp [findA, hk]
        · by_cases hodd : k % 2 = 1
          · simp only [findA, if_neg hk, if_pos hodd]
            exact ih ((k - 1) / 2) (by omega) l f₁ f₂ (by omega) (by omega)
          · simp only [findA, if_neg hk, if_neg hodd]
            exact ih ((k - 2) / 2) (by omega) r f₁ f₂ (by omega) (by omega)

theorem insertA_fuel {α : Type} :
    ∀ (k : Nat) (t : NTrie α) (a : α) (f₁ f₂ : Nat), k < f₁ → k < f₂ →
      insertA f₁ t k a = insertA f₂ t k a := by
  intro k
  induction k using Nat.strong_induction_on with
  | _ k ih =>
    intro t a f₁ f₂ h₁ h₂
    match f₁, f₂ with
    | f₁ + 1, f₂ + 1 =>
      cases t with
      | leaf =>
        by_cases hk : k = 0
        · simp [insertA, hk]
        · by_cases hodd : k % 2 = 1
          · simp only [insertA, if_neg hk, if_pos hodd]
            rw [ih ((k - 1) / 2) (by omega) .leaf a f₁ f₂ (by omega) (by omega)]
          · simp only [insertA, if_neg hk, if_neg hodd]
            rw [ih ((k - 2) / 2) (by omega) .leaf a f₁ f₂ (by omega) (by omega)]
      | node v l r =>
        by_cases hk : k = 0
        · simp [insertA, hk]
        · by_cases hodd : k % 2 = 1
          · simp only [insertA, if_neg hk, if_pos hodd]
            rw [ih ((k - 1) / 2) (by omega) l a f₁ f₂ (by omega) (by omega)]
          · simp only [insertA, if_neg hk, if_neg hodd]
            rw [ih ((k - 2) / 2) (by omega) r a f₁ f₂ (by omega) (by omega)]

theorem find?_insert_self {α : Type} :
    ∀ (k : Nat) (t : NTrie α) (a : α), (t.insert k a).find? k = some a := by
  intro k
  induction k using Nat.strong_induction_on with
  | _ k ih =>
    intro t a
    show findA (k + 1) (insertA (k + 1) t k a) k = some a
    by_cases hk : k = 0
    · cases t <;> simp [insertA, findA, hk]
    · by_cases hodd : k % 2 = 1
      · have hlt : (k - 1) / 2 < k := by omega
        cases t with
        | leaf =>
          simp only [insertA, if_neg hk, if_pos hodd, findA]
          rw [findA_fuel ((k - 1) / 2) _ k ((k - 1) / 2 + 1) (by omega) (by omega),
            insertA_fuel ((k - 1) / 2) _ a k ((k - 1) / 2 + 1) (by omega) (by omega)]
          exact ih ((k - 1) / 2) hlt .leaf a
        | node v l r =>
          simp only [insertA, if_neg hk, if_pos hodd, findA]
          rw [findA_fuel ((k - 1) / 2) _ k ((k - 1) / 2 + 1) (by omega) (by omega),
            insertA_fuel ((k - 1) / 2) _ a k ((k - 1) / 2 + 1) (by omega) (by omega)]
          exact ih ((k - 1) / 2) hlt l a
      · have hlt : (k - 2) / 2 < k := by omega
        cases t with
        | leaf =>
          simp only [insertA, if_neg hk, if_neg hodd, findA]
          rw [findA_fuel ((k - 2) / 2) _ k ((k - 2) / 2 + 1) (by omega) (by omega),
            insertA_fuel ((k - 2) / 2) _ a k ((k - 2) / 2 + 1) (by omega) (by omega)]
          exact ih ((k - 2) / 2) hlt .leaf a
        | node v l r =>
          simp only [insertA, if_neg hk, if_neg hodd, findA]
          rw [findA_fuel ((k - 2) / 2) _ k ((k - 2) / 2 + 1) (by omega) (by omega),
            insertA_fuel ((k - 2) / 2) _ a k ((k - 2) / 2 + 1) (by omega) (by omega)]
          exact ih ((k - 2) / 2) hlt r a

theorem findA_leaf {α : Type} (f k : Nat) : findA f (.leaf : NTrie α) k = none := by
  cases f <;> rfl

theorem find?_insert_of_ne {α : Type} :
    ∀ (k : Nat) (t : NTrie α) (a : α) (k₂ : Nat), k ≠ k₂ →
      (t.insert k a).find? k₂ = t.find? k₂ := by
  intro k
  induction k using Nat.strong_induction_on with
  | _ k ih =>
    intro t a k₂ hne
    show findA (k₂ + 1) (insertA (k + 1) t k a) k₂ = findA (k₂ + 1) t k₂
    by_cases hk : k = 0
    · subst hk
      cases t with
      | leaf =>
        simp only [insertA, if_pos rfl]
        have hk₂ : k₂ ≠ 0 := fun h => hne h.symm
        by_cases hodd : k₂ % 2 = 1 <;>
          simp [findA, hk₂, hodd, findA_leaf]
      | node v l r =>
        have hk₂ : k₂ ≠ 0 := fun h => hne h.symm
        by_cases hodd : k₂ % 2 = 1 <;>
          simp [insertA, findA, hk₂, hodd]
    · by_cases hk₂ : k₂ = 0
      · subst hk₂
        by_cases hodd : k % 2 = 1 <;>
          cases t <;> simp [insertA, findA, hk, hodd]
      · -- both keys are nonzero; compare parities
        by_cases hodd : k % 2 = 1 <;> by_cases hodd₂ : k₂ % 2 = 1
        · -- both odd: same (left) child, child keys still differ
          have hlt : (k - 1) / 2 < k := by omega
          have hne' : (k - 1) / 2 ≠ (k₂ - 1) / 2 := by omega
          cases t with
          | leaf =>
            simp only [insertA, if_neg hk, if_pos hodd, findA, if_neg hk₂,
              if_pos hodd₂, findA_leaf]
            rw [insertA_fuel ((k - 1) / 2) _ a k ((k - 1) / 2 + 1) (by omega) (by omega),
              findA_fuel ((k₂ - 1) / 2) _ k₂ ((k₂ - 1) / 2 + 1) (by omega) (by omega)]
            exact (ih ((k - 1) / 2) hlt .leaf a ((k₂ - 1) / 2) hne').trans (findA_leaf _ _)
          | node v l r =>
            simp only [insertA, if_neg hk, if_pos hodd, findA, if_neg hk₂, if_pos hodd₂]
            rw [insertA_fuel ((k - 1) / 2) _ a k ((k - 1) / 2 + 1) (by omega) (by omega),
              findA_fuel ((k₂ - 1) / 2) _ k₂ ((k₂ - 1) / 2 + 1) (by omega) (by omega)]
            exact (ih ((k - 1) / 2) hlt l a ((k₂ - 1) / 2) hne').trans
              (findA_fuel ((k₂ - 1) / 2) l ((k₂ - 1) / 2 + 1) k₂ (by omega) (by omega))
        · -- insert left, look up right
          cases t with
          | leaf =>
            simp only [insertA, if_neg hk, if_pos hodd, findA, if_neg hk₂,
              if_neg hodd₂, findA_leaf]
          | node v l r =>
            simp only [insertA, if_neg hk, if_pos hodd, findA, if_neg hk₂, if_neg hodd₂]
        · -- insert right, look up left
          cases t with
          | leaf =>
            simp only [insertA, if_neg hk, if_neg hodd, findA, if_neg hk₂,
              if_pos hodd₂, findA_leaf]
          | node v l r =>
            simp only [insertA, if_neg hk, if_neg hodd, findA, if_neg hk₂, if_pos hodd₂]
        · -- both even: same (right) child, child keys still differ
          have hlt : (k - 2) / 2 < k := by omega
          have hne' : (k - 2) / 2 ≠ (k₂ - 2) / 2 := by omega
          cases t with
          | leaf =>
            simp only [insertA, if_neg hk, if_neg hodd, findA, if_neg hk₂,
              if_neg hodd₂, findA_leaf]
            rw [insertA_fuel ((k - 2) / 2) _ a k ((k - 2) / 2 + 1) (by omega) (by omega),
              findA_fuel ((k₂ - 2) / 2) _ k₂ ((k₂ - 2) / 2 + 1) (by omega) (by omega)]
            exact (ih ((k - 2) / 2) hlt .leaf a ((k₂ - 2) / 2) hne').trans (findA_leaf _ _)
          | node v l r =>
            simp only [insertA, if_neg hk, if_neg hodd, findA, if_neg hk₂, if_neg hodd₂]
            rw [insertA_fuel ((k - 2) / 2) _ a k ((k - 2) / 2 + 1) (by omega) (by omega),
              findA_fuel ((k₂ - 2) / 2) _ k₂ ((k₂ - 2) / 2 + 1) (by omega) (by omega)]
            exact (ih ((k - 2) / 2) hlt r a ((k₂ - 2) / 2) hne').trans
              (findA_fuel ((k₂ - 2) / 2) r ((k₂ - 2) / 2 + 1) k₂ (by omega) (by omega))

end NTrie

/-! ## Collision grid (`load_collision_map`, `is_blocked` in main.py) -/

/-- Constant `MAP_WIDTH` in main.py. -/
def MAP_WIDTH : Int := 140

/-- Constant `MAP_HEIGHT` in main.py. -/
def MAP_HEIGHT : Int := 100

/-- Constant `MAX_AGENTS` in main.py. -/
def MAX_AGENTS : Nat := 100

/-- Collision-map state `COLLISION_WIDTH`, `COLLISION_HEIGHT` and
`COLLISION_MAP` in main.py, as set by `load_collision_map` from the
external tilemap description.  An empty `data` is the state with no
collision map loaded ("movement unrestricted"). -/
structure Grid where
  width : Int
  height : Int
  data : List Int
deriving DecidableEq

/-- Function `is_blocked(x, y)` in main.py.  The source indexes
`COLLISION_MAP[y*width + x]`; on a well-formed tilemap
(`data.length = width*height`) that index is in range whenever the
bounds test passes, so total `getD` indexing coincides with it. -/
def is_blocked (g : Grid) (x y : Int) : Bool :=
  if g.data.isEmpty then false
  else if intLt x 0 || !intLt x g.width || intLt y 0 || !intLt y g.height then true
  else (g.data.getD (y * g.width + x).toNat 0) != 0

theorem is_blocked_false_bounds {g : Grid} {x y : Int} (hd : g.data ≠ [])
    (h : is_blocked g x y = false) :
    0 ≤ x ∧ x < g.width ∧ 0 ≤ y ∧ y < g.height := by
  rw [is_blocked, if_neg (by simpa [List.isEmpty_iff] using hd)] at h
  by_cases hb : (intLt x 0 || !intLt x g.width || intLt y 0 || !intLt y g.height) = true
  · rw [if_pos hb] at h; cases h
  · have hx0 : intLt x 0 = false := by
      cases hh : intLt x 0
      · rfl
      · exact absurd (by simp [hh]) hb
    have hxw : intLt x g.width = true := by
      cases hh : intLt x g.width
      · exact absurd (by simp [hx0, hh]) hb
      · rfl
    have hy0 : intLt y 0 = false := by
      cases hh : intLt y 0
      · rfl
      · exact absurd (by simp [hx0, hxw, hh]) hb
    have hyh : intLt y g.height = true := by
      cases hh : intLt y g.height
      · exact absurd (by simp [hx0, hxw, hy0, hh]) hb
      · rfl
    refine ⟨?_, intLt_iff.mp hxw, ?_, intLt_iff.mp hyh⟩
    · by_contra hcon
      rw [intLt_iff.mpr (by omega)] at hx0
      simp at hx0
    · by_contra hcon
      rw [intLt_iff.mpr (by omega)] at hy0
      simp at hy0

/-! ## Pathfinder (`find_path` in main.py)

A* over 4-directional neighbours with the Manhattan heuristic.  The
`heapq` priority queue is the `openSet` list; `heapq.heappop` returns
the lexicographically least `(f_score, counter, position)` tuple, and,
since pushed counters are pairwise distinct, that least entry is unique
and the comparison never reaches the position component.  `popMin`
extracts exactly that entry. -/

/-- Function `heuristic(a, b)` in main.py: Manhattan distance. -/
def heuristic (a b : Pos) : Nat :=
  (a.1 - b.1).natAbs + (a.2 - b.2).natAbs

/-- Entries of the `open_set` heap: `(f_score, counter, position)`
exactly as pushed by `heapq.heappush`. -/
abbrev HeapEntry := Nat × Nat × Pos

/-- Test whether `b` strictly precedes `a` in the heap order on
`(f_score, counter)`. -/
def heapBefore (a b : HeapEntry) : Bool :=
  !(a.1.ble b.1) || (a.1 == b.1 && !(a.2.1.ble b.2.1))

/-- Boolean equality of heap entries. -/
def entryEq (a b : HeapEntry) : Bool :=
  a.1 == b.1 && a.2.1 == b.2.1 && posEq a.2.2 b.2.2

/-- Computes the minimum entry of `x :: l` in the heap order. -/
def findMin : HeapEntry → List HeapEntry → HeapEntry
  | m, [] => m
  | m, e :: rest => findMin (if heapBefore m e then e else m) rest

/-- Removes the first occurrence of an entry from the heap list. -/
def removeOnce : List HeapEntry → HeapEntry → List HeapEntry
  | [], _ => []
  | x :: xs, e => if entryEq x e then xs else x :: removeOnce xs e

/-- Models `heapq.heappop`: extracts the least entry (unique, as pushed
counters are distinct) and the remaining queue; `none` on an empty
queue.  The queue is kept as an unordered list, which is sound because
only the extracted minimum is observable. -/
def popMin (l : List HeapEntry) : Option (HeapEntry × List HeapEntry) :=
  match l with
  | [] => none
  | x :: xs =>
    let m := findMin x xs
    some (m, removeOnce (x :: xs) m)

/-- Mutable state of the `find_path` search loop.  `visitedLen` caches
`len(visited)`, which Python reads in O(1). -/
structure AStarState where
  openSet : List HeapEntry
  cameFrom : NTrie Pos
  gScore : NTrie Nat
  fScore : NTrie Nat
  visited : NTrie Unit
  visitedLen : Nat
  counter : Nat

/-- Neighbour offsets in the order the Python loop tries them:
`[(0, -1), (0, 1), (-1, 0), (1, 0)]`. -/
def neighborDirs : List Pos := [(0, -1), (0, 1), (-1, 0), (1, 0)]

/-- Body of the `for dx, dy in ...` neighbour loop of `find_path`: skip
visited and blocked neighbours and relax the rest (`came_from`,
`g_score`, `f_score` updates followed by `counter += 1; heappush`).
The read `g_score[current]` is modelled with default 0; the loop only
reaches it with `current` present in `g_score`. -/
def relaxNeighbors (g : Grid) (goal current : Pos) (st : AStarState) : AStarState :=
  neighborDirs.foldl
    (fun st d =>
      let neighbor : Pos := (current.1 + d.1, current.2 + d.2)
      if (st.visited.find? (posKey neighbor)).isSome then st
      else if is_blocked g neighbor.1 neighbor.2 then st
      else
        let tentative_g := (st.gScore.find? (posKey current)).getD 0 + 1
        let keep :=
          match st.gScore.find? (posKey neighbor) with
          | none => true
          | some gn => !(gn.ble tentative_g)
        if keep then
          let f := tentative_g + heuristic neighbor goal
          { st with
            cameFrom := st.cameFrom.insert (posKey neighbor) current
            gScore := st.gScore.insert (posKey neighbor) tentative_g
            fScore := st.fScore.insert (posKey neighbor) f
            counter := st.counter + 1
            openSet := (f, st.counter + 1, neighbor) :: st.openSet }
        else st)
    st

/-- Path reconstruction at the goal: Python walks `came_from` from the
goal appending each cell and reverses at the end; consing onto an
accumulator builds the reversed list directly.  The walk is fuelled:
`came_from` chains strictly decrease `g_score`, so any fuel no smaller
than the number of insertions (bounded by `counter + 1`, as supplied
by `astarLoop`) behaves exactly like the Python loop. -/
def reconstructPath (cameFrom : NTrie Pos) : Nat → Pos → List Pos → List Pos
  | 0, _, acc => acc
  | fuel + 1, current, acc =>
    match cameFrom.find? (posKey current) with
    | none => acc
    | some prev => reconstructPath cameFrom fuel prev (current :: acc)

/-- Loop `while open_set and len(visited) < max_steps` of `find_path`.
Fuelled recursion: every iteration pops one queue entry and at most
`1 + 4*max_steps` entries are ever pushed, so the fuel supplied by
`find_path` (`4*max_steps + 2`) never runs out. -/
def astarLoop (g : Grid) (goal : Pos) (max_steps : Nat) :
    Nat → AStarState → List Pos
  | 0, _ => []
  | fuel + 1, st =>
    if !(max_steps.ble st.visitedLen) then
      match popMin st.openSet with
      | none => []
      | some (e, rest) =>
        let current := e.2.2
        if (st.visited.find? (posKey current)).isSome then
          astarLoop g goal max_steps fuel { st with openSet := rest }
        else
          let st := { st with openSet := rest,
                              visited := st.visited.insert (posKey current) (),
                              visitedLen := st.visitedLen + 1 }
          if posEq current goal then
            reconstructPath st.cameFrom (st.counter + 1) current []
          else
            astarLoop g goal max_steps fuel (relaxNeighbors g goal current st)
    else []

/-- Ring of candidate substitute goals at a given radius, in the Python
scan order: outer `dx` from `-radius` to `radius`, inner `dy` from
`-radius` to `radius`, keeping offsets with `|dx| + |dy| == radius`. -/
def ringCandidates (gx gy : Int) (radius : Nat) : List Pos :=
  ((List.range (2 * radius + 1)).map
    (fun i =>
      (List.range (2 * radius + 1)).filterMap
        (fun j =>
          let dx : Int := (i : Int) - (radius : Int)
          let dy : Int := (j : Int) - (radius : Int)
          if dx.natAbs + dy.natAbs = radius then some (gx + dx, gy + dy)
          else none))).flatten

/-- Candidate substitute goals for radii `1, 2, ..., 9`
(`for radius in range(1, 10)`), in scan order. -/
def substituteCandidates (gx gy : Int) : List Pos :=
  ((List.range 9).map (fun r => ringCandidates gx gy (r + 1))).flatten

/-- Goal-substitution prologue of `find_path`: when the goal tile is
blocked, the nested `for ... break / else ... continue` loops replace
it with the first unblocked candidate in scan order, if any. -/
def resolveGoal (g : Grid) (gx gy : Int) : Pos :=
  if is_blocked g gx gy then
    match (substituteCandidates gx gy).find? (fun p => !is_blocked g p.1 p.2) with
    | some p => p
    | none => (gx, gy)
  else (gx, gy)

/-- Function `find_path(start_x, start_y, goal_x, goal_y, max_steps)` in
main.py: goal substitution for blocked goals, then A* with the
`max_steps` visited-node cap.  Returns the cell sequence from start
(exclusive) to goal (inclusive), or `[]`. -/
def find_path (g : Grid) (start_x start_y goal_x goal_y : Int) (max_steps : Nat) :
    List Pos :=
  let start : Pos := (start_x, start_y)
  let goal := resolveGoal g goal_x goal_y
  if posEq start goal then []
  else
    astarLoop g goal max_steps (4 * max_steps + 2)
      { openSet := [(0, 0, start)]
        cameFrom := .leaf
        gScore := NTrie.insert .leaf (posKey start) 0
        fScore := NTrie.insert .leaf (posKey start) (heuristic start goal)
        visited := .leaf
        visitedLen := 0
        counter := 0 }

/-- Applies `find_path` with its default cap `max_steps = 500`, as in
the call from `move_agent`. -/
def find_path_default (g : Grid) (start_x start_y goal_x goal_y : Int) : List Pos :=
  find_path g start_x start_y goal_x goal_y 500

/-- Open grid: the collision state of main.py when no collision map is
loaded, where `is_blocked` is constantly false ("no blocked tiles"). -/
def openGrid : Grid := ⟨MAP_WIDTH, MAP_HEIGHT, []⟩

/-! ### Open-grid geometry of the A* search

With no collision map loaded, every cell the A* loop pops lies on a
Manhattan geodesic from the start to the (substituted) goal: the two
heuristic distances sum to the start-goal distance.  The development
below proves this as a loop invariant and concludes that every cell of
a returned path stays inside the start-goal bounding rectangle, hence
inside the map whenever both endpoints are. -/

/-- The cell `p` lies on a Manhattan geodesic from `s` to `t`. -/
def onSeg (s p t : Pos) : Prop :=
  heuristic s p + heuristic p t = heuristic s t

theorem heuristic_self (p : Pos) : heuristic p p = 0 := by
  simp [heuristic]

theorem heuristic_triangle (a b c : Pos) :
    heuristic a c ≤ heuristic a b + heuristic b c := by
  unfold heuristic
  omega

theorem onSeg_left (s t : Pos) : onSeg s s t := by
  simp [onSeg, heuristic_self]

theorem onSeg_right (s t : Pos) : onSeg s t t := by
  simp [onSeg, heuristic_self]

theorem heuristic_eq_zero {p q : Pos} (h : heuristic p q = 0) : p = q := by
  rcases p with ⟨px, py⟩
  rcases q with ⟨qx, qy⟩
  unfold heuristic at h
  dsimp only at h
  have hx : px = qx := by omega
  have hy : py = qy := by omega
  rw [hx, hy]

theorem heuristic_pos {p q : Pos} (h : p ≠ q) : 1 ≤ heuristic p q :=
  Nat.pos_of_ne_zero (fun h0 => h (heuristic_eq_zero h0))

theorem heuristic_step_le (s c dd : Pos) (h : dd ∈ neighborDirs) :
    heuristic s (c.1 + dd.1, c.2 + dd.2) ≤ heuristic s c + 1 := by
  have h4 : dd = ((0 : Int), (-1 : Int)) ∨ dd = ((0 : Int), (1 : Int)) ∨
      dd = ((-1 : Int), (0 : Int)) ∨ dd = ((1 : Int), (0 : Int)) := by
    simpa [neighborDirs] using h
  rcases h4 with rfl | rfl | rfl | rfl <;>
    · unfold heuristic
      dsimp only
      omega

/-- The neighbour offset that moves one step from `p` towards `t`,
first along x, then along y. -/
def towardDir (p t : Pos) : Pos :=
  if p.1 < t.1 then (1, 0)
  else if t.1 < p.1 then (-1, 0)
  else if p.2 < t.2 then (0, 1)
  else (0, -1)

theorem towardDir_mem (p t : Pos) : towardDir p t ∈ neighborDirs := by
  unfold towardDir neighborDirs
  split_ifs <;> simp

theorem towardDir_spec {s p t : Pos} (hne : p ≠ t) (hseg : onSeg s p t) :
    onSeg s (p.1 + (towardDir p t).1, p.2 + (towardDir p t).2) t ∧
    heuristic (p.1 + (towardDir p t).1, p.2 + (towardDir p t).2) t + 1 =
      heuristic p t ∧
    heuristic s (p.1 + (towardDir p t).1, p.2 + (towardDir p t).2) =
      heuristic s p + 1 := by
  have hcoord : p.1 ≠ t.1 ∨ p.2 ≠ t.2 := by
    by_contra hc
    push_neg at hc
    exact hne (Prod.ext hc.1 hc.2)
  unfold onSeg heuristic at hseg ⊢
  have hx : (s.1 - p.1).natAbs + (p.1 - t.1).natAbs = (s.1 - t.1).natAbs := by omega
  have hy : (s.2 - p.2).natAbs + (p.2 - t.2).natAbs = (s.2 - t.2).natAbs := by omega
  clear hseg hne
  by_cases h1 : p.1 < t.1
  · rw [show towardDir p t = ((1 : Int), (0 : Int)) from by
      rw [towardDir, if_pos h1]]
    dsimp only
    omega
  · by_cases h2 : t.1 < p.1
    · rw [show towardDir p t = ((-1 : Int), (0 : Int)) from by
        rw [towardDir, if_neg h1, if_pos h2]]
      dsimp only
      omega
    · by_cases h3 : p.2 < t.2
      · rw [show towardDir p t = ((0 : Int), (1 : Int)) from by
          rw [towardDir, if_neg h1, if_neg h2, if_pos h3]]
        dsimp only
        omega
      · rw [show towardDir p t = ((0 : Int), (-1 : Int)) from by
          rw [towardDir, if_neg h1, if_neg h2, if_neg h3]]
        dsimp only
        omega

theorem onSeg_bounds {s p t : Pos} (h : onSeg s p t)
    (hs1 : 0 ≤ s.1) (hs2 : s.1 < MAP_WIDTH) (hs3 : 0 ≤ s.2) (hs4 : s.2 < MAP_HEIGHT)
    (ht1 : 0 ≤ t.1) (ht2 : t.1 < MAP_WIDTH) (ht3 : 0 ≤ t.2) (ht4 : t.2 < MAP_HEIGHT) :
    0 ≤ p.1 ∧ p.1 < MAP_WIDTH ∧ 0 ≤ p.2 ∧ p.2 < MAP_HEIGHT := by
  unfold onSeg heuristic at h
  omega

/-! ### Heap extraction order -/

theorem heapBefore_true_le {a b : HeapEntry} (h : heapBefore a b = true) :
    b.1 ≤ a.1 := by
  unfold heapBefore at h
  cases hb : Nat.ble a.1 b.1 with
  | true =>
    rw [hb] at h
    simp only [Bool.not_true, Bool.false_or, Bool.and_eq_true, beq_iff_eq] at h
    omega
  | false =>
    have : ¬ (a.1 ≤ b.1) := fun hle => by
      rw [Nat.ble_eq_true_of_le hle] at hb
      cases hb
    omega

theorem heapBefore_false_le {a b : HeapEntry} (h : heapBefore a b = false) :
    a.1 ≤ b.1 := by
  unfold heapBefore at h
  cases hb : Nat.ble a.1 b.1 with
  | true => exact Nat.le_of_ble_eq_true hb
  | false =>
    rw [hb] at h
    cases h

theorem findMin_fst_le_self : ∀ (l : List HeapEntry) (x : HeapEntry),
    (findMin x l).1 ≤ x.1 := by
  intro l
  induction l with
  | nil => intro x; exact Nat.le_refl _
  | cons y rest ih =>
    intro x
    rw [findMin]
    by_cases h : heapBefore x y = true
    · rw [if_pos h]
      exact Nat.le_trans (ih y) (heapBefore_true_le h)
    · rw [if_neg h]
      exact ih x

theorem findMin_mem : ∀ (l : List HeapEntry) (x : HeapEntry), findMin x l ∈ x :: l := by
  intro l
  induction l with
  | nil => intro x; exact List.mem_cons.mpr (Or.inl rfl)
  | cons y rest ih =>
    intro x
    rw [findMin]
    by_cases h : heapBefore x y = true
    · rw [if_pos h]
      exact List.mem_cons.mpr (Or.inr (ih y))
    · rw [if_neg h]
      rcases List.mem_cons.mp (ih x) with h' | h'
      · exact List.mem_cons.mpr (Or.inl h')
      · exact List.mem_cons.mpr (Or.inr (List.mem_cons.mpr (Or.inr h')))

theorem findMin_fst_le : ∀ (l : List HeapEntry) (x e : HeapEntry),
    e ∈ x :: l → (findMin x l).1 ≤ e.1 := by
  intro l
  induction l with
  | nil =>
    intro x e he
    have : e = x := by simpa using he
    rw [this]
    exact Nat.le_refl _
  | cons y rest ih =>
    intro x e he
    rw [findMin]
    have hle : (if heapBefore x y then y else x).1 ≤ x.1 ∧
        (if heapBefore x y then y else x).1 ≤ y.1 := by
      by_cases h : heapBefore x y = true
      · rw [if_pos h]
        exact ⟨heapBefore_true_le h, Nat.le_refl _⟩
      · rw [if_neg h]
        refine ⟨Nat.le_refl _, heapBefore_false_le ?_⟩
        cases hh : heapBefore x y
        · rfl
        · exact absurd hh h
    rcases List.mem_cons.mp he with rfl | he'
    · exact Nat.le_trans (findMin_fst_le_self rest _) hle.1
    · rcases List.mem_cons.mp he' with rfl | he''
      · exact Nat.le_trans (findMin_fst_le_self rest _) hle.2
      · exact ih _ e (List.mem_cons.mpr (Or.inr he''))

theorem entryEq_iff {a b : HeapEntry} : entryEq a b = true ↔ a = b := by
  rcases a with ⟨a1, a2, a3⟩
  rcases b with ⟨b1, b2, b3⟩
  simp [entryEq, posEq_iff, Prod.ext_iff, and_assoc]

theorem removeOnce_subset : ∀ (l : List HeapEntry) (m e : HeapEntry),
    e ∈ removeOnce l m → e ∈ l := by
  intro l
  induction l with
  | nil =>
    intro m e h
    exact absurd h (List.not_mem_nil e)
  | cons x xs ih =>
    intro m e h
    rw [removeOnce] at h
    by_cases hx : entryEq x m = true
    · rw [if_pos hx] at h
      exact List.mem_cons.mpr (Or.inr h)
    · rw [if_neg hx] at h
      rcases List.mem_cons.mp h with rfl | h'
      · exact List.mem_cons.mpr (Or.inl rfl)
      · exact List.mem_cons.mpr (Or.inr (ih m e h'))

theorem mem_removeOnce_of_ne : ∀ (l : List HeapEntry) (m e : HeapEntry),
    e ∈ l → e ≠ m → e ∈ removeOnce l m := by
  intro l
  induction l with
  | nil =>
    intro m e h _
    exact absurd h (List.not_mem_nil e)
  | cons x xs ih =>
    intro m e h hne
    rw [removeOnce]
    by_cases hx : entryEq x m = true
    · rw [if_pos hx]
      rcases List.mem_cons.mp h with rfl | h'
      · exact absurd (entryEq_iff.mp hx) hne
      · exact h'
    · rw [if_neg hx]
      rcases List.mem_cons.mp h with rfl | h'
      · exact List.mem_cons.mpr (Or.inl rfl)
      · exact List.mem_cons.mpr (Or.inr (ih m e h' hne))

theorem popMin_eq {l : List HeapEntry} {m : HeapEntry} {rest : List HeapEntry}
    (h : popMin l = some (m, rest)) :
    m ∈ l ∧ rest = removeOnce l m ∧ ∀ e ∈ l, m.1 ≤ e.1 := by
  cases l with
  | nil => cases h
  | cons x xs =>
    rw [popMin] at h
    injection h with h'
    rw [Prod.ext_iff] at h'
    obtain ⟨h1, h2⟩ := h'
    dsimp only at h1 h2
    subst h1
    subst h2
    exact ⟨findMin_mem xs x, rfl, fun e he => findMin_fst_le xs x e he⟩

/-! ### Trie lookups at position keys -/

theorem find?_insert_pos_ne {α : Type} (t : NTrie α) {p q : Pos} (hne : q ≠ p) (a : α) :
    (t.insert (posKey p) a).find? (posKey q) = t.find? (posKey q) :=
  NTrie.find?_insert_of_ne (posKey p) t a (posKey q) (fun h => hne (posKey_inj h).symm)

theorem is_blocked_empty {g : Grid} (hg : g.data = []) (x y : Int) :
    is_blocked g x y = false := by
  rw [is_blocked, if_pos (by simp [hg])]

/-! ### The neighbour relaxation as a single-offset step -/

theorem bool_eq_false {b : Bool} (h : ¬ (b = true)) : b = false := by
  cases b
  · rfl
  · exact absurd rfl h

/-- The `if neighbor not in g_score or tentative_g < g_score[neighbor]`
test of the relaxation of `find_path`. -/
def relaxKeep (st : AStarState) (current neighbor : Pos) : Bool :=
  match st.gScore.find? (posKey neighbor) with
  | none => true
  | some gn => !(gn.ble ((st.gScore.find? (posKey current)).getD 0 + 1))

/-- One pass of the neighbour loop body of `find_path` for the single
offset `d`: skip a visited or blocked neighbour, otherwise relax it;
`relaxNeighbors` is its fourfold iteration over `neighborDirs`. -/
def relaxStep (g : Grid) (goal current : Pos) (st : AStarState) (d : Pos) :
    AStarState :=
  if (st.visited.find? (posKey (current.1 + d.1, current.2 + d.2))).isSome then st
  else if is_blocked g (current.1 + d.1) (current.2 + d.2) then st
  else if relaxKeep st current (current.1 + d.1, current.2 + d.2) then
    { st with
      cameFrom := st.cameFrom.insert (posKey (current.1 + d.1, current.2 + d.2)) current
      gScore := st.gScore.insert (posKey (current.1 + d.1, current.2 + d.2))
        ((st.gScore.find? (posKey current)).getD 0 + 1)
      fScore := st.fScore.insert (posKey (current.1 + d.1, current.2 + d.2))
        ((st.gScore.find? (posKey current)).getD 0 + 1 +
          heuristic (current.1 + d.1, current.2 + d.2) goal)
      counter := st.counter + 1
      openSet := ((st.gScore.find? (posKey current)).getD 0 + 1 +
          heuristic (current.1 + d.1, current.2 + d.2) goal,
        st.counter + 1, (current.1 + d.1, current.2 + d.2)) :: st.openSet }
  else st

theorem relaxNeighbors_eq (g : Grid) (goal current : Pos) (st : AStarState) :
    relaxNeighbors g goal current st =
      relaxStep g goal current
        (relaxStep g goal current
          (relaxStep g goal current
            (relaxStep g goal current st (0, -1)) (0, 1)) (-1, 0)) (1, 0) := rfl

theorem relaxKeep_lt {st : AStarState} {current q : Pos} {gv : Nat}
    (hk : relaxKeep st current q = true)
    (hgv : st.gScore.find? (posKey q) = some gv) :
    (st.gScore.find? (posKey current)).getD 0 + 1 < gv := by
  simp only [relaxKeep, hgv] at hk
  have hble : gv.ble ((st.gScore.find? (posKey current)).getD 0 + 1) = false := by
    cases hb : gv.ble ((st.gScore.find? (posKey current)).getD 0 + 1)
    · rfl
    · rw [hb] at hk
      cases hk
  have hnle : ¬ (gv ≤ (st.gScore.find? (posKey current)).getD 0 + 1) := fun hle => by
    rw [Nat.ble_eq_true_of_le hle] at hble
    cases hble
  omega

theorem relaxKeep_false {st : AStarState} {current q : Pos}
    (hk : relaxKeep st current q = false) :
    ∃ gn, st.gScore.find? (posKey q) = some gn ∧
      gn ≤ (st.gScore.find? (posKey current)).getD 0 + 1 := by
  cases hgs : st.gScore.find? (posKey q) with
  | none =>
    simp only [relaxKeep, hgs] at hk
    exact Bool.noConfusion hk
  | some gn =>
    simp only [relaxKeep, hgs] at hk
    refine ⟨gn, rfl, ?_⟩
    have hble : gn.ble ((st.gScore.find? (posKey current)).getD 0 + 1) = true := by
      cases hb : gn.ble ((st.gScore.find? (posKey current)).getD 0 + 1)
      · rw [hb] at hk
        simp at hk
      · rfl
    exact Nat.le_of_ble_eq_true hble

/-! ### The loop invariant on an open grid -/

/-- Invariant of the A* loop states on an open grid, for a fixed start
and goal: every queue entry dominates the geodesic bound, scores are
admissible, visited cells sit on start-goal geodesics with exact
scores and fully relaxed neighbours, parent links point into the
visited set, every scored unvisited cell retains a live queue entry at
its current score, an unvisited geodesic entry at the exact bound is
live in the queue, and the goal is unvisited.  `fScore`, `counter` and
`visitedLen` are unconstrained: the conclusions never read them. -/
structure AInv (start goal : Pos) (st : AStarState) : Prop where
  open_ge : ∀ e ∈ st.openSet,
    heuristic start e.2.2 + heuristic e.2.2 goal ≤ e.1
  open_g : ∀ e ∈ st.openSet, ∃ gv, st.gScore.find? (posKey e.2.2) = some gv ∧
    gv + heuristic e.2.2 goal ≤ e.1
  g_ge : ∀ p gv, st.gScore.find? (posKey p) = some gv → heuristic start p ≤ gv
  vis_seg : ∀ p, (st.visited.find? (posKey p)).isSome = true → onSeg start p goal
  vis_g : ∀ p, (st.visited.find? (posKey p)).isSome = true →
    st.gScore.find? (posKey p) = some (heuristic start p)
  vis_nb : ∀ p, (st.visited.find? (posKey p)).isSome = true →
    ∀ dd ∈ neighborDirs, ∃ gv,
      st.gScore.find? (posKey (p.1 + dd.1, p.2 + dd.2)) = some gv ∧
      gv ≤ heuristic start p + 1
  came_vis : ∀ p q, st.cameFrom.find? (posKey p) = some q →
    (st.visited.find? (posKey q)).isSome = true
  g_open : ∀ p gv, st.gScore.find? (posKey p) = some gv →
    (st.visited.find? (posKey p)).isSome = true ∨
    ∃ e ∈ st.openSet, e.2.2 = p ∧ e.1 = gv + heuristic p goal
  frontier : ∃ e ∈ st.openSet, e.1 = heuristic start goal ∧
    onSeg start e.2.2 goal ∧ (st.visited.find? (posKey e.2.2)).isSome = false
  goal_unvis : (st.visited.find? (posKey goal)).isSome = false

/-- State of the loop body after the pop and visited-insertion of
`current` but before its neighbour relaxation: the invariant minus the
frontier, with the neighbour-score bound waived for `current`. -/
structure APre (start goal current : Pos) (st : AStarState) : Prop where
  open_ge : ∀ e ∈ st.openSet,
    heuristic start e.2.2 + heuristic e.2.2 goal ≤ e.1
  open_g : ∀ e ∈ st.openSet, ∃ gv, st.gScore.find? (posKey e.2.2) = some gv ∧
    gv + heuristic e.2.2 goal ≤ e.1
  g_ge : ∀ p gv, st.gScore.find? (posKey p) = some gv → heuristic start p ≤ gv
  vis_seg : ∀ p, (st.visited.find? (posKey p)).isSome = true → onSeg start p goal
  vis_g : ∀ p, (st.visited.find? (posKey p)).isSome = true →
    st.gScore.find? (posKey p) = some (heuristic start p)
  vis_nb : ∀ p, (st.visited.find? (posKey p)).isSome = true → p ≠ current →
    ∀ dd ∈ neighborDirs, ∃ gv,
      st.gScore.find? (posKey (p.1 + dd.1, p.2 + dd.2)) = some gv ∧
      gv ≤ heuristic start p + 1
  came_vis : ∀ p q, st.cameFrom.find? (posKey p) = some q →
    (st.visited.find? (posKey q)).isSome = true
  g_open : ∀ p gv, st.gScore.find? (posKey p) = some gv →
    (st.visited.find? (posKey p)).isSome = true ∨
    ∃ e ∈ st.openSet, e.2.2 = p ∧ e.1 = gv + heuristic p goal
  goal_unvis : (st.visited.find? (posKey goal)).isSome = false
  cur_vis : (st.visited.find? (posKey current)).isSome = true
  cur_ne : current ≠ goal

/-- The neighbour at offset `dd` carries a score bounded by one more
than the score of `current`. -/
def nbDone (start current : Pos) (st : AStarState) (dd : Pos) : Prop :=
  ∃ gv, st.gScore.find? (posKey (current.1 + dd.1, current.2 + dd.2)) = some gv ∧
    gv ≤ heuristic start current + 1

/-! ### Preservation of the invariant by a relaxation step -/

theorem relaxStep_pre {g : Grid} (hg : g.data = []) {start goal current : Pos}
    {st : AStarState} (d : Pos) (hd : d ∈ neighborDirs)
    (h : APre start goal current st) :
    APre start goal current (relaxStep g goal current st d) ∧
    nbDone start current (relaxStep g goal current st d) d := by
  have hqle : heuristic start (current.1 + d.1, current.2 + d.2) ≤
      heuristic start current + 1 := heuristic_step_le start current d hd
  have hgc : st.gScore.find? (posKey current) = some (heuristic start current) :=
    h.vis_g current h.cur_vis
  have htg : (st.gScore.find? (posKey current)).getD 0 + 1 =
      heuristic start current + 1 := by rw [hgc]; rfl
  by_cases hv : (st.visited.find? (posKey (current.1 + d.1, current.2 + d.2))).isSome = true
  · rw [relaxStep, if_pos hv]
    exact ⟨h, heuristic start (current.1 + d.1, current.2 + d.2), h.vis_g _ hv, hqle⟩
  · have hbl : is_blocked g (current.1 + d.1) (current.2 + d.2) = false :=
      is_blocked_empty hg _ _
    have hbl2 : ¬ (is_blocked g (current.1 + d.1) (current.2 + d.2) = true) :=
      fun hh => Bool.false_ne_true (hbl ▸ hh)
    by_cases hk : relaxKeep st current (current.1 + d.1, current.2 + d.2) = true
    · rw [relaxStep, if_neg hv, if_neg hbl2, if_pos hk]
      refine ⟨⟨?_, ?_, ?_, ?_, ?_, ?_, ?_, ?_, ?_, ?_, ?_⟩, ?_⟩
      · -- open_ge
        intro e he
        dsimp only at he
        rcases List.mem_cons.mp he with rfl | he'
        · dsimp only
          omega
        · exact h.open_ge e he'
      · -- open_g
        intro e he
        dsimp only at he
        rcases List.mem_cons.mp he with rfl | he'
        · refine ⟨(st.gScore.find? (posKey current)).getD 0 + 1, ?_, ?_⟩
          · dsimp only
            rw [NTrie.find?_insert_self]
          · dsimp only
            omega
        · obtain ⟨gv, hgv, hle⟩ := h.open_g e he'
          by_cases hpq : e.2.2 = (current.1 + d.1, current.2 + d.2)
          · have hlt := relaxKeep_lt hk (hpq ▸ hgv)
            refine ⟨(st.gScore.find? (posKey current)).getD 0 + 1, ?_, ?_⟩
            · dsimp only
              rw [hpq, NTrie.find?_insert_self]
            · omega
          · refine ⟨gv, ?_, hle⟩
            dsimp only
            rw [find?_insert_pos_ne _ hpq _]
            exact hgv
      · -- g_ge
        intro p gv hgv
        dsimp only at hgv
        by_cases hpq : p = (current.1 + d.1, current.2 + d.2)
        · subst hpq
          rw [NTrie.find?_insert_self] at hgv
          injection hgv with hgv2
          omega
        · rw [find?_insert_pos_ne _ hpq _] at hgv
          exact h.g_ge p gv hgv
      · -- vis_seg
        intro p hp
        exact h.vis_seg p hp
      · -- vis_g
        intro p hp
        have hpq : p ≠ (current.1 + d.1, current.2 + d.2) := by
          intro he
          rw [he] at hp
          exact hv hp
        dsimp only
        rw [find?_insert_pos_ne _ hpq _]
        exact h.vis_g p hp
      · -- vis_nb
        intro p hp hpc dd hdd
        obtain ⟨gv, hgv, hb⟩ := h.vis_nb p hp hpc dd hdd
        by_cases hpq : (p.1 + dd.1, p.2 + dd.2) = (current.1 + d.1, current.2 + d.2)
        · have hlt := relaxKeep_lt hk (hpq ▸ hgv)
          refine ⟨(st.gScore.find? (posKey current)).getD 0 + 1, ?_, ?_⟩
          · dsimp only
            rw [hpq, NTrie.find?_insert_self]
          · omega
        · refine ⟨gv, ?_, hb⟩
          dsimp only
          rw [find?_insert_pos_ne _ hpq _]
          exact hgv
      · -- came_vis
        intro p q2 hq2
        dsimp only at hq2
        by_cases hpq : p = (current.1 + d.1, current.2 + d.2)
        · subst hpq
          rw [NTrie.find?_insert_self] at hq2
          injection hq2 with hq2b
          rw [← hq2b]
          exact h.cur_vis
        · rw [find?_insert_pos_ne _ hpq _] at hq2
          exact h.came_vis p q2 hq2
      · -- g_open
        intro p gv hgv
        dsimp only at hgv
        by_cases hpq : p = (current.1 + d.1, current.2 + d.2)
        · subst hpq
          rw [NTrie.find?_insert_self] at hgv
          injection hgv with hgv2
          right
          refine ⟨((st.gScore.find? (posKey current)).getD 0 + 1 +
            heuristic (current.1 + d.1, current.2 + d.2) goal,
            st.counter + 1, (current.1 + d.1, current.2 + d.2)), ?_, rfl, ?_⟩
          · dsimp only
            exact List.mem_cons.mpr (Or.inl rfl)
          · dsimp only
            omega
        · rw [find?_insert_pos_ne _ hpq _] at hgv
          rcases h.g_open p gv hgv with hvp | ⟨e, he, hpos, hf⟩
          · exact Or.inl hvp
          · exact Or.inr ⟨e, List.mem_cons.mpr (Or.inr he), hpos, hf⟩
      · -- goal_unvis
        exact h.goal_unvis
      · -- cur_vis
        exact h.cur_vis
      · -- cur_ne
        exact h.cur_ne
      · -- nbDone
        refine ⟨(st.gScore.find? (posKey current)).getD 0 + 1, ?_, ?_⟩
        · dsimp only
          rw [NTrie.find?_insert_self]
        · omega
    · have hkf := bool_eq_false hk
      rw [relaxStep, if_neg hv, if_neg hbl2, if_neg hk]
      obtain ⟨gn, hgn, hle⟩ := relaxKeep_false hkf
      exact ⟨h, gn, hgn, by omega⟩

theorem relaxStep_g_mono {g : Grid} {goal current : Pos} {st : AStarState} {d : Pos}
    {p : Pos} {gv : Nat} (h : st.gScore.find? (posKey p) = some gv) :
    ∃ gv2, (relaxStep g goal current st d).gScore.find? (posKey p) = some gv2 ∧
      gv2 ≤ gv := by
  by_cases hv : (st.visited.find? (posKey (current.1 + d.1, current.2 + d.2))).isSome = true
  · rw [relaxStep, if_pos hv]
    exact ⟨gv, h, Nat.le_refl _⟩
  · by_cases hbl : is_blocked g (current.1 + d.1) (current.2 + d.2) = true
    · rw [relaxStep, if_neg hv, if_pos hbl]
      exact ⟨gv, h, Nat.le_refl _⟩
    · by_cases hk : relaxKeep st current (current.1 + d.1, current.2 + d.2) = true
      · rw [relaxStep, if_neg hv, if_neg hbl, if_pos hk]
        by_cases hpq : p = (current.1 + d.1, current.2 + d.2)
        · subst hpq
          have hlt := relaxKeep_lt hk h
          refine ⟨(st.gScore.find? (posKey current)).getD 0 + 1, ?_, by omega⟩
          dsimp only
          rw [NTrie.find?_insert_self]
        · refine ⟨gv, ?_, Nat.le_refl _⟩
          dsimp only
          rw [find?_insert_pos_ne _ hpq _]
          exact h
      · rw [relaxStep, if_neg hv, if_neg hbl, if_neg hk]
        exact ⟨gv, h, Nat.le_refl _⟩

theorem relaxStep_nbDone {g : Grid} {goal current : Pos} {st : AStarState}
    {d dd : Pos} {start : Pos} (h : nbDone start current st dd) :
    nbDone start current (relaxStep g goal current st d) dd := by
  obtain ⟨gv, hgv, hb⟩ := h
  obtain ⟨gv2, hgv2, hle⟩ := relaxStep_g_mono hgv
  exact ⟨gv2, hgv2, Nat.le_trans hle hb⟩

/-! ### The frontier witness: descending a geodesic to an open entry -/

theorem descent {start goal : Pos} {st : AStarState}
    (hg_ge : ∀ p gv, st.gScore.find? (posKey p) = some gv → heuristic start p ≤ gv)
    (hvis_nb : ∀ p, (st.visited.find? (posKey p)).isSome = true →
      ∀ dd ∈ neighborDirs, ∃ gv,
        st.gScore.find? (posKey (p.1 + dd.1, p.2 + dd.2)) = some gv ∧
        gv ≤ heuristic start p + 1)
    (hg_open : ∀ p gv, st.gScore.find? (posKey p) = some gv →
      (st.visited.find? (posKey p)).isSome = true ∨
      ∃ e ∈ st.openSet, e.2.2 = p ∧ e.1 = gv + heuristic p goal)
    (hgoal : (st.visited.find? (posKey goal)).isSome = false) :
    ∀ (n : Nat) (p : Pos), heuristic p goal ≤ n → onSeg start p goal →
      (st.visited.find? (posKey p)).isSome = true →
      ∃ e ∈ st.openSet, e.1 = heuristic start goal ∧ onSeg start e.2.2 goal ∧
        (st.visited.find? (posKey e.2.2)).isSome = false := by
  intro n
  induction n with
  | zero =>
    intro p hle hseg hvis
    have hpg : p = goal := heuristic_eq_zero (Nat.le_zero.mp hle)
    rw [hpg, hgoal] at hvis
    exact Bool.noConfusion hvis
  | succ n ih =>
    intro p hle hseg hvis
    have hne : p ≠ goal := by
      intro he
      rw [he, hgoal] at hvis
      exact Bool.noConfusion hvis
    obtain ⟨hqseg, hqg, hqs⟩ := towardDir_spec hne hseg
    obtain ⟨gv, hgv, hgvle⟩ := hvis_nb p hvis (towardDir p goal) (towardDir_mem p goal)
    have hgeq : gv = heuristic start
        (p.1 + (towardDir p goal).1, p.2 + (towardDir p goal).2) := by
      have h1 := hg_ge _ _ hgv
      omega
    cases hqvis : (st.visited.find?
        (posKey (p.1 + (towardDir p goal).1, p.2 + (towardDir p goal).2))).isSome with
    | true =>
      exact ih _ (by omega) hqseg hqvis
    | false =>
      rcases hg_open _ _ hgv with hv2 | ⟨e, hmem, hpos, hf⟩
      · rw [hqvis] at hv2
        exact Bool.noConfusion hv2
      · refine ⟨e, hmem, ?_, ?_, ?_⟩
        · rw [hf, hgeq]
          exact hqseg
        · rw [hpos]
          exact hqseg
        · rw [hpos]
          exact hqvis

/-! ### Relaxation of a popped cell restores the full invariant -/

theorem relax_inv {g : Grid} (hg : g.data = []) {start goal current : Pos}
    {st : AStarState} (h : APre start goal current st) :
    AInv start goal (relaxNeighbors g goal current st) := by
  have h1 := relaxStep_pre hg ((0 : Int), (-1 : Int)) (by decide) h
  have h2 := relaxStep_pre hg ((0 : Int), (1 : Int)) (by decide) h1.1
  have h3 := relaxStep_pre hg ((-1 : Int), (0 : Int)) (by decide) h2.1
  have h4 := relaxStep_pre hg ((1 : Int), (0 : Int)) (by decide) h3.1
  have n1 : nbDone start current
      (relaxStep g goal current
        (relaxStep g goal current
          (relaxStep g goal current
            (relaxStep g goal current st (0, -1)) (0, 1)) (-1, 0)) (1, 0)) (0, -1) :=
    relaxStep_nbDone (relaxStep_nbDone (relaxStep_nbDone h1.2))
  have n2 : nbDone start current
      (relaxStep g goal current
        (relaxStep g goal current
          (relaxStep g goal current
            (relaxStep g goal current st (0, -1)) (0, 1)) (-1, 0)) (1, 0)) (0, 1) :=
    relaxStep_nbDone (relaxStep_nbDone h2.2)
  have n3 : nbDone start current
      (relaxStep g goal current
        (relaxStep g goal current
          (relaxStep g goal current
            (relaxStep g goal current st (0, -1)) (0, 1)) (-1, 0)) (1, 0)) (-1, 0) :=
    relaxStep_nbDone h3.2
  have n4 := h4.2
  rw [relaxNeighbors_eq]
  have hvnb : ∀ p, (((relaxStep g goal current
      (relaxStep g goal current
        (relaxStep g goal current
          (relaxStep g goal current st (0, -1)) (0, 1)) (-1, 0)) (1, 0))).visited.find?
            (posKey p)).isSome = true →
      ∀ dd ∈ neighborDirs, ∃ gv,
        ((relaxStep g goal current
          (relaxStep g goal current
            (relaxStep g goal current
              (relaxStep g goal current st (0, -1)) (0, 1)) (-1, 0)) (1, 0)).gScore.find?
                (posKey (p.1 + dd.1, p.2 + dd.2))) = some gv ∧
        gv ≤ heuristic start p + 1 := by
    intro p hp dd hdd
    by_cases hpc : p = current
    · subst hpc
      have hdd4 : dd = ((0 : Int), (-1 : Int)) ∨ dd = ((0 : Int), (1 : Int)) ∨
          dd = ((-1 : Int), (0 : Int)) ∨ dd = ((1 : Int), (0 : Int)) := by
        simpa [neighborDirs] using hdd
      rcases hdd4 with rfl | rfl | rfl | rfl
      · exact n1
      · exact n2
      · exact n3
      · exact n4
    · exact h4.1.vis_nb p hp hpc dd hdd
  have hseg : onSeg start current goal :=
    h4.1.vis_seg current h4.1.cur_vis
  exact {
    open_ge := h4.1.open_ge
    open_g := h4.1.open_g
    g_ge := h4.1.g_ge
    vis_seg := h4.1.vis_seg
    vis_g := h4.1.vis_g
    vis_nb := hvnb
    came_vis := h4.1.came_vis
    g_open := h4.1.g_open
    frontier := descent h4.1.g_ge hvnb h4.1.g_open h4.1.goal_unvis
      (heuristic current goal) current (Nat.le_refl _) hseg h4.1.cur_vis
    goal_unvis := h4.1.goal_unvis }

/-! ### The pop transitions -/

theorem visited_insert_cases {t : NTrie Unit} {p q : Pos}
    (h : (((t.insert (posKey q) ())).find? (posKey p)).isSome = true) :
    p = q ∨ (t.find? (posKey p)).isSome = true := by
  by_cases hpq : p = q
  · exact Or.inl hpq
  · right
    rw [find?_insert_pos_ne t hpq ()] at h
    exact h

theorem visited_insert_mono {t : NTrie Unit} {p q : Pos}
    (h : (t.find? (posKey p)).isSome = true) :
    (((t.insert (posKey q) ())).find? (posKey p)).isSome = true := by
  by_cases hpq : p = q
  · subst hpq
    rw [NTrie.find?_insert_self]
    rfl
  · rw [find?_insert_pos_ne t hpq ()]
    exact h

theorem visited_insert_none {t : NTrie Unit} {p q : Pos} (hne : p ≠ q)
    (h : (t.find? (posKey p)).isSome = false) :
    (((t.insert (posKey q) ())).find? (posKey p)).isSome = false := by
  rw [find?_insert_pos_ne t hne ()]
  exact h

theorem pop_fresh {start goal : Pos} {st : AStarState} (hinv : AInv start goal st)
    {m : HeapEntry} {rest : List HeapEntry}
    (hpop : popMin st.openSet = some (m, rest))
    (hfresh : (st.visited.find? (posKey m.2.2)).isSome = false) :
    m.1 = heuristic start goal ∧ onSeg start m.2.2 goal ∧
    st.gScore.find? (posKey m.2.2) = some (heuristic start m.2.2) := by
  obtain ⟨hmem, hrest, hmin⟩ := popMin_eq hpop
  obtain ⟨w, hw, hwf, hwseg, hwvis⟩ := hinv.frontier
  have h1 : m.1 ≤ heuristic start goal := hwf ▸ hmin w hw
  have h2 := hinv.open_ge m hmem
  have h3 := heuristic_triangle start m.2.2 goal
  have hf : m.1 = heuristic start goal := by omega
  have hseg : onSeg start m.2.2 goal := by
    unfold onSeg
    omega
  obtain ⟨gv, hgv, hgvle⟩ := hinv.open_g m hmem
  have hgveq : gv = heuristic start m.2.2 := by
    have h5 := hinv.g_ge _ _ hgv
    have h6 : onSeg start m.2.2 goal := hseg
    unfold onSeg at h6
    omega
  exact ⟨hf, hseg, hgveq ▸ hgv⟩

theorem pop_pre {start goal : Pos} {st : AStarState} (hinv : AInv start goal st)
    {m : HeapEntry} {rest : List HeapEntry}
    (hpop : popMin st.openSet = some (m, rest))
    (hfresh : (st.visited.find? (posKey m.2.2)).isSome = false)
    (hne : m.2.2 ≠ goal) :
    APre start goal m.2.2
      { st with openSet := rest,
                visited := st.visited.insert (posKey m.2.2) (),
                visitedLen := st.visitedLen + 1 } := by
  obtain ⟨hmem, hrest, hmin⟩ := popMin_eq hpop
  obtain ⟨hmf, hmseg, hmg⟩ := pop_fresh hinv hpop hfresh
  subst hrest
  refine ⟨?_, ?_, ?_, ?_, ?_, ?_, ?_, ?_, ?_, ?_, ?_⟩
  · intro e he
    exact hinv.open_ge e (removeOnce_subset _ _ _ he)
  · intro e he
    exact hinv.open_g e (removeOnce_subset _ _ _ he)
  · exact hinv.g_ge
  · intro p hp
    rcases visited_insert_cases hp with rfl | hp2
    · exact hmseg
    · exact hinv.vis_seg p hp2
  · intro p hp
    rcases visited_insert_cases hp with rfl | hp2
    · exact hmg
    · exact hinv.vis_g p hp2
  · intro p hp hpc dd hdd
    rcases visited_insert_cases hp with rfl | hp2
    · exact absurd rfl hpc
    · exact hinv.vis_nb p hp2 dd hdd
  · intro p q2 hq2
    exact visited_insert_mono (hinv.came_vis p q2 hq2)
  · intro p gv hgv
    by_cases hpm : p = m.2.2
    · subst hpm
      left
      rw [NTrie.find?_insert_self]
      rfl
    · rcases hinv.g_open p gv hgv with hvp | ⟨e, he, hpos, hf2⟩
      · exact Or.inl (visited_insert_mono hvp)
      · refine Or.inr ⟨e, mem_removeOnce_of_ne _ _ _ he ?_, hpos, hf2⟩
        intro heq
        rw [heq] at hpos
        exact hpm hpos.symm
  · exact visited_insert_none (fun hh => hne hh.symm) hinv.goal_unvis
  · rw [NTrie.find?_insert_self]
    rfl
  · exact hne

theorem pop_stale {start goal : Pos} {st : AStarState} (hinv : AInv start goal st)
    {m : HeapEntry} {rest : List HeapEntry}
    (hpop : popMin st.openSet = some (m, rest))
    (hstale : (st.visited.find? (posKey m.2.2)).isSome = true) :
    AInv start goal { st with openSet := rest } := by
  obtain ⟨hmem, hrest, hmin⟩ := popMin_eq hpop
  subst hrest
  refine ⟨?_, ?_, hinv.g_ge, hinv.vis_seg, hinv.vis_g, hinv.vis_nb, hinv.came_vis,
    ?_, ?_, hinv.goal_unvis⟩
  · intro e he
    exact hinv.open_ge e (removeOnce_subset _ _ _ he)
  · intro e he
    exact hinv.open_g e (removeOnce_subset _ _ _ he)
  · intro p gv hgv
    rcases hinv.g_open p gv hgv with hvp | ⟨e, he, hpos, hf⟩
    · exact Or.inl hvp
    · by_cases hpv : (st.visited.find? (posKey p)).isSome = true
      · exact Or.inl hpv
      · refine Or.inr ⟨e, mem_removeOnce_of_ne _ _ _ he ?_, hpos, hf⟩
        intro heq
        rw [heq] at hpos
        rw [hpos] at hstale
        exact hpv hstale
  · obtain ⟨w, hw, hwf, hwseg, hwvis⟩ := hinv.frontier
    refine ⟨w, mem_removeOnce_of_ne _ _ _ hw ?_, hwf, hwseg, hwvis⟩
    intro heq
    rw [heq] at hwvis
    rw [hstale] at hwvis
    exact Bool.noConfusion hwvis

/-! ### From the invariant to the returned path -/

theorem find?_leaf {α : Type} (k : Nat) : (NTrie.leaf : NTrie α).find? k = none :=
  NTrie.findA_leaf _ _

theorem reconstructPath_seg {start goal : Pos} {cf : NTrie Pos} {vis : NTrie Unit}
    (hcv : ∀ p q, cf.find? (posKey p) = some q → (vis.find? (posKey q)).isSome = true)
    (hvs : ∀ p, (vis.find? (posKey p)).isSome = true → onSeg start p goal) :
    ∀ (fuel : Nat) (cur : Pos) (acc : List Pos), onSeg start cur goal →
      (∀ a ∈ acc, onSeg start a goal) →
      ∀ p ∈ reconstructPath cf fuel cur acc, onSeg start p goal := by
  intro fuel
  induction fuel with
  | zero =>
    intro cur acc hcur hacc p hp
    exact hacc p hp
  | succ fuel ih =>
    intro cur acc hcur hacc p hp
    cases hcf : cf.find? (posKey cur) with
    | none =>
      rw [reconstructPath] at hp
      simp only [hcf] at hp
      exact hacc p hp
    | some prev =>
      rw [reconstructPath] at hp
      simp only [hcf] at hp
      refine ih prev (cur :: acc) (hvs prev (hcv cur prev hcf)) ?_ p hp
      intro a ha
      rcases List.mem_cons.mp ha with rfl | ha2
      · exact hcur
      · exact hacc a ha2

theorem astarLoop_seg {g : Grid} (hg : g.data = []) (start goal : Pos) (ms : Nat) :
    ∀ (fuel : Nat) (st : AStarState), AInv start goal st →
      ∀ p ∈ astarLoop g goal ms fuel st, onSeg start p goal := by
  intro fuel
  induction fuel with
  | zero =>
    intro st _ p hp
    exact absurd hp (List.not_mem_nil p)
  | succ fuel ih =>
    intro st hinv p hp
    by_cases hguard : (!(ms.ble st.visitedLen)) = true
    · cases hpop : popMin st.openSet with
      | none =>
        rw [astarLoop, if_pos hguard, hpop] at hp
        exact absurd hp (List.not_mem_nil p)
      | some pr =>
        obtain ⟨m, rest⟩ := pr
        by_cases hvis : (st.visited.find? (posKey m.2.2)).isSome = true
        · have hstep : astarLoop g goal ms (fuel + 1) st =
              astarLoop g goal ms fuel { st with openSet := rest } := by
            rw [astarLoop, if_pos hguard, hpop]
            dsimp only
            rw [if_pos hvis]
          rw [hstep] at hp
          exact ih _ (pop_stale hinv hpop hvis) p hp
        · have hvis2 : (st.visited.find? (posKey m.2.2)).isSome = false :=
            bool_eq_false hvis
          by_cases hgoal : posEq m.2.2 goal = true
          · have hstep : astarLoop g goal ms (fuel + 1) st =
                reconstructPath st.cameFrom (st.counter + 1) m.2.2 [] := by
              rw [astarLoop, if_pos hguard, hpop]
              dsimp only
              rw [if_neg hvis, if_pos hgoal]
            rw [hstep] at hp
            have hcur : m.2.2 = goal := posEq_iff.mp hgoal
            refine reconstructPath_seg hinv.came_vis hinv.vis_seg
              (st.counter + 1) m.2.2 [] ?_ ?_ p hp
            · rw [hcur]
              exact onSeg_right start goal
            · intro a ha
              exact absurd ha (List.not_mem_nil a)
          · have hstep : astarLoop g goal ms (fuel + 1) st =
                astarLoop g goal ms fuel (relaxNeighbors g goal m.2.2
                  { st with openSet := rest,
                            visited := st.visited.insert (posKey m.2.2) (),
                            visitedLen := st.visitedLen + 1 }) := by
              rw [astarLoop, if_pos hguard, hpop]
              dsimp only
              rw [if_neg hvis, if_neg hgoal]
            rw [hstep] at hp
            have hne : m.2.2 ≠ goal := fun he => hgoal (posEq_iff.mpr he)
            exact ih _ (relax_inv hg (pop_pre hinv hpop hvis2 hne)) p hp
    · rw [astarLoop, if_neg hguard] at hp
      exact absurd hp (List.not_mem_nil p)

/-! ### The initial state after the first expansion -/

theorem init_pre (start goal : Pos) (hne : start ≠ goal)
    (fS : NTrie Nat) (cnt len : Nat) :
    APre start goal start
      { openSet := [], cameFrom := .leaf,
        gScore := NTrie.insert .leaf (posKey start) 0,
        fScore := fS,
        visited := NTrie.insert .leaf (posKey start) (),
        visitedLen := len, counter := cnt } := by
  refine ⟨?_, ?_, ?_, ?_, ?_, ?_, ?_, ?_, ?_, ?_, ?_⟩
  · intro e he
    exact absurd he (List.not_mem_nil e)
  · intro e he
    exact absurd he (List.not_mem_nil e)
  · intro p gv hgv
    dsimp only at hgv
    by_cases hpq : p = start
    · subst hpq
      rw [NTrie.find?_insert_self] at hgv
      injection hgv with h2
      rw [← h2]
      simp [heuristic_self]
    · rw [find?_insert_pos_ne _ hpq _, find?_leaf] at hgv
      exact Option.noConfusion hgv
  · intro p hp
    rcases visited_insert_cases hp with rfl | h2
    · exact onSeg_left p goal
    · rw [find?_leaf] at h2
      exact Bool.noConfusion h2
  · intro p hp
    rcases visited_insert_cases hp with rfl | h2
    · dsimp only
      rw [NTrie.find?_insert_self, heuristic_self]
    · rw [find?_leaf] at h2
      exact Bool.noConfusion h2
  · intro p hp hpc dd hdd
    rcases visited_insert_cases hp with rfl | h2
    · exact absurd rfl hpc
    · rw [find?_leaf] at h2
      exact Bool.noConfusion h2
  · intro p q hq
    dsimp only at hq
    rw [find?_leaf] at hq
    exact Option.noConfusion hq
  · intro p gv hgv
    dsimp only at hgv
    by_cases hpq : p = start
    · subst hpq
      left
      dsimp only
      rw [NTrie.find?_insert_self]
      rfl
    · rw [find?_insert_pos_ne _ hpq _, find?_leaf] at hgv
      exact Option.noConfusion hgv
  · dsimp only
    rw [find?_insert_pos_ne _ (fun he => hne he.symm) _, find?_leaf]
    rfl
  · dsimp only
    rw [NTrie.find?_insert_self]
    rfl
  · exact hne

/-! ### Every path cell of `find_path` on an open grid is on a geodesic -/

theorem find_path_empty_seg {g : Grid} (hg : g.data = []) (sx sy gx gy : Int)
    (ms : Nat) : ∀ p ∈ find_path g sx sy gx gy ms, onSeg (sx, sy) p (gx, gy) := by
  intro p hp
  have hres : resolveGoal g gx gy = (gx, gy) := by
    rw [resolveGoal,
      if_neg (fun hh => Bool.false_ne_true ((is_blocked_empty hg gx gy) ▸ hh))]
  rw [find_path] at hp
  rw [hres] at hp
  by_cases hstart : posEq (sx, sy) (gx, gy) = true
  · rw [if_pos hstart] at hp
    exact absurd hp (List.not_mem_nil p)
  · rw [if_neg hstart] at hp
    have hne : ((sx, sy) : Pos) ≠ (gx, gy) := fun he => hstart (posEq_iff.mpr he)
    cases ms with
    | zero =>
      rw [show 4 * 0 + 2 = 1 + 1 from rfl, astarLoop,
        if_neg (by decide : ¬ ((!(Nat.ble 0 0)) = true))] at hp
      exact absurd hp (List.not_mem_nil p)
    | succ msn =>
      rw [show 4 * (msn + 1) + 2 = (4 * (msn + 1) + 1) + 1 from rfl, astarLoop,
        if_pos (show (!(Nat.ble (msn + 1) 0)) = true from rfl)] at hp
      have hpop : popMin [((0 : Nat), (0 : Nat), ((sx, sy) : Pos))] =
          some (((0 : Nat), (0 : Nat), ((sx, sy) : Pos)), []) := by
        rw [popMin]
        dsimp only [findMin]
        rw [removeOnce, if_pos (entryEq_iff.mpr rfl)]
      simp only [hpop] at hp
      rw [if_neg (fun hh => Bool.noConfusion ((find?_leaf (posKey (sx, sy))) ▸ hh))] at hp
      rw [if_neg hstart] at hp
      exact astarLoop_seg hg (sx, sy) (gx, gy) (msn + 1) _ _
        (relax_inv hg (init_pre (sx, sy) (gx, gy) hne _ _ _)) p hp

theorem find_path_empty_bounds {g : Grid} (hg : g.data = []) {sx sy gx gy : Int}
    {ms : Nat}
    (hs1 : 0 ≤ sx) (hs2 : sx < MAP_WIDTH) (hs3 : 0 ≤ sy) (hs4 : sy < MAP_HEIGHT)
    (ht1 : 0 ≤ gx) (ht2 : gx < MAP_WIDTH) (ht3 : 0 ≤ gy) (ht4 : gy < MAP_HEIGHT) :
    ∀ p ∈ find_path g sx sy gx gy ms,
      0 ≤ p.1 ∧ p.1 < MAP_WIDTH ∧ 0 ≤ p.2 ∧ p.2 < MAP_HEIGHT := by
  intro p hp
  exact onSeg_bounds (find_path_empty_seg hg sx sy gx gy ms p hp)
    hs1 hs2 hs3 hs4 ht1 ht2 ht3 ht4

/-! ## Association lists with Python dict semantics

The string-keyed global dicts (`agents`, `api_keys`, `agent_paths`,
`rate_limits`, ...) are modelled as insertion-ordered association
lists: lookup takes the first match, update replaces the first matching
entry in place and otherwise appends (Python dicts append new keys at
the end), deletion removes the entry. -/

/-- Looks up a key: `d[k]` / `d.get(k)`. -/
def lookupA {κ α : Type} [DecidableEq κ] : List (κ × α) → κ → Option α
  | [], _ => none
  | (k', v) :: rest, k => if k' = k then some v else lookupA rest k

/-- Writes a binding in place: `d[k] = v`. -/
def updateA {κ α : Type} [DecidableEq κ] : List (κ × α) → κ → α → List (κ × α)
  | [], k, v => [(k, v)]
  | (k', v') :: rest, k, v =>
    if k' = k then (k, v) :: rest else (k', v') :: updateA rest k v

/-- Deletes a binding: `d.pop(k, None)` / `del d[k]`. -/
def removeA {κ α : Type} [DecidableEq κ] : List (κ × α) → κ → List (κ × α)
  | [], _ => []
  | (k', v') :: rest, k =>
    if k' = k then rest else (k', v') :: removeA rest k

/-- Deletes the first binding whose value equals `v`: the
`for key, aid in list(d.items()): if aid == v: del d[key]; break`
cleanup loop of `leave_world` and `cleanup_inactive_agents`. -/
def removeFirstValue {κ α : Type} [DecidableEq α] : List (κ × α) → α → List (κ × α)
  | [], _ => []
  | (k', v') :: rest, v =>
    if v' = v then rest else (k', v') :: removeFirstValue rest v

theorem lookupA_updateA_self {κ α : Type} [DecidableEq κ]
    (l : List (κ × α)) (k : κ) (v : α) : lookupA (updateA l k v) k = some v := by
  induction l with
  | nil => simp [lookupA, updateA]
  | cons e rest ih =>
    obtain ⟨k', v'⟩ := e
    by_cases h : k' = k
    · simp [updateA, lookupA, h]
    · simp [updateA, lookupA, h, ih]

theorem lookupA_updateA_ne {κ α : Type} [DecidableEq κ]
    (l : List (κ × α)) (k k₂ : κ) (v : α) (h : k ≠ k₂) :
    lookupA (updateA l k v) k₂ = lookupA l k₂ := by
  induction l with
  | nil => simp [lookupA, updateA, h]
  | cons e rest ih =>
    obtain ⟨k', v'⟩ := e
    by_cases hk : k' = k
    · subst hk
      simp [updateA, lookupA, h]
    · simp only [updateA, if_neg hk, lookupA]
      by_cases hk₂ : k' = k₂
      · simp [hk₂]
      · simp [hk₂, ih]

theorem lookupA_removeA_nodup {κ α : Type} [DecidableEq κ]
    (l : List (κ × α)) (k : κ) (hnd : (l.map Prod.fst).Nodup) :
    lookupA (removeA l k) k = none := by
  induction l with
  | nil => simp [removeA, lookupA]
  | cons e rest ih =>
    obtain ⟨k', v'⟩ := e
    simp only [List.map_cons, List.nodup_cons] at hnd
    by_cases h : k' = k
    · subst h
      rw [removeA, if_pos rfl]
      cases hl : lookupA rest k' with
      | none => rfl
      | some v =>
        exfalso
        apply hnd.1
        clear ih hnd
        induction rest with
        | nil => simp [lookupA] at hl
        | cons e₂ rest₂ ih₂ =>
          obtain ⟨k₂, v₂⟩ := e₂
          simp only [lookupA] at hl
          by_cases h₂ : k₂ = k'
          · simp [h₂]
          · simp only [List.map_cons, List.mem_cons]
            right
            rw [if_neg h₂] at hl
            exact ih₂ hl
    · rw [removeA, if_neg h, lookupA, if_neg h]
      exact ih hnd.2

theorem lookupA_removeA_ne {κ α : Type} [DecidableEq κ]
    (l : List (κ × α)) (k k₂ : κ) (h : k ≠ k₂) :
    lookupA (removeA l k) k₂ = lookupA l k₂ := by
  induction l with
  | nil => simp [removeA]
  | cons e rest ih =>
    obtain ⟨k', v'⟩ := e
    by_cases hk : k' = k
    · subst hk
      rw [removeA, if_pos rfl, lookupA, if_neg h]
    · rw [removeA, if_neg hk, lookupA, lookupA]
      by_cases hk₂ : k' = k₂
      · simp [hk₂]
      · simp [hk₂, ih]

/-! ## World state

The record collects the module-level mutable dicts of main.py that the
verified properties read.  Omitted globals (feature layers and
transport): `pending_verifications`, `pending_claims`,
`pending_registrations`, `active_events`, `activity_feed`,
`agent_memories`, `housing`, `ws_connections`. -/

/-- Agent record created by `join_world` in main.py.  The feature-layer
bag (`description`, `verified`, `twitter_handle`, `verified_at`,
`needs`, `mood`, `activity`, `achievements`, `money`, `home`, `stats`)
is omitted: no verified property reads it. -/
structure Agent where
  agent_id : String
  name : String
  emoji : String
  sprite : String
  x : Int
  y : Int
  last_seen : Rat
  joined_at : Rat
  move_count : Nat
  message_count : Nat
  friends : List String
deriving DecidableEq

/-- Chat message record built by `send_chat` in main.py.  The source
field named `to` is `to_` here, as `to` is a Lean keyword. -/
structure ChatMessage where
  id : String
  from_id : String
  from_name : String
  from_emoji : String
  message : String
  to_ : Option String
  timestamp : Rat
  x : Int
  y : Int
deriving DecidableEq

/-- Value stored in `verified_registrations` by `verify_claim`. -/
structure Registration where
  name : String
  description : String
  emoji : String
  sprite : String
  twitter_handle : String
  verified_at : Rat
deriving DecidableEq

/-- Value stored in the `romance` index. -/
structure RomanceRel where
  status : String
  since : Rat
deriving DecidableEq

/-- The module-level mutable world state of main.py. -/
structure World where
  agents : List (String × Agent)
  api_keys : List (String × String)
  verified_registrations : List (String × Registration)
  used_twitter_handles : List (String × String)
  agent_paths : List (String × List Pos)
  rate_limits : List (String × List (String × Rat))
  chat_history : List ChatMessage
  relationships : List (String × List (String × Int))
  romance : List (String × List (String × RomanceRel))
deriving DecidableEq

/-- Constant `MAX_CHAT_HISTORY` in main.py. -/
def MAX_CHAT_HISTORY : Nat := 100

/-- Table `RATE_LIMITS` in main.py: seconds between actions
(`move`: 0.2, `chat`: 2.0). -/
def RATE_LIMITS : List (String × Rat) := [("move", 1/5), ("chat", 2)]

/-- Reads `RATE_LIMITS.get(action, 0)`. -/
def cooldown (action : String) : Rat := (lookupA RATE_LIMITS action).getD 0

/-- Reads `rate_limits[agent_id].get(action, 0)`: the `rate_limits`
defaultdict yields `{"move": 0, "chat": 0}` for fresh agents, so a
missing entry reads as 0. -/
def rlLast (w : World) (agent_id action : String) : Rat :=
  match lookupA w.rate_limits agent_id with
  | none => ((lookupA [(("move" : String), (0 : Rat)), ("chat", 0)] action).getD 0)
  | some m => (lookupA m action).getD 0

/-- Function `check_rate_limit(agent_id, action)` in main.py, with the
wall clock passed explicitly.  Returns the verdict and the updated
state; on denial the recorded times are unchanged (the defaultdict may
materialize the all-zero default entry, which reads identically, so
the state is returned as is). -/
def check_rate_limit (w : World) (agent_id action : String) (now : Rat) :
    Bool × World :=
  let last_time := rlLast w agent_id action
  if now - last_time < cooldown action then (false, w)
  else
    let m := (lookupA w.rate_limits agent_id).getD [("move", 0), ("chat", 0)]
    (true, { w with rate_limits := updateA w.rate_limits agent_id (updateA m action now) })

/-! ## Move (`move_agent` in main.py) -/

/-- Function `clamp(value, min_val, max_val)` in main.py. -/
def clamp (value lo hi : Int) : Int :=
  max lo (min hi value)

/-- Request body of `POST /move` (`MoveRequest` in main.py). -/
structure MoveRequest where
  agent_id : String
  direction : String
  target_x : Option Int
  target_y : Option Int
deriving DecidableEq

/-- Entry of the `nearby_agents` list in the move response. -/
structure NearbyAgent where
  agent_id : String
  name : String
  emoji : String
  distance : Int
deriving DecidableEq

/-- Manhattan distance as a Python int, as computed for `nearby`
agents and locations: `abs(ax - bx) + abs(ay - by)`. -/
def manhattan (a b : Pos) : Int :=
  ((a.1 - b.1).natAbs : Int) + ((a.2 - b.2).natAbs : Int)

/-- Outcomes of `move_agent`: the HTTP 404 (unknown agent), 429 (rate
limited), the early `at_destination` success return of the target-move
branch, the `blocked` rejection, and the committed move with its
nearby-agents payload. -/
inductive MoveResult where
  | notFound
  | rateLimited
  | atDestination (position : Pos)
  | blocked (position : Pos)
  | moved (position : Pos) (nearby : List NearbyAgent)
deriving DecidableEq

/-- Result of the destination computation: either a concrete
destination tile to collision-check, or the early success return
("Already at destination or no path found"), each with the updated
path-cache dict. -/
inductive StepOutcome where
  | step (new : Pos) (paths : List (String × List Pos))
  | noPath (paths : List (String × List Pos))
deriving DecidableEq

/-- Destination computation of `move_agent` (main.py lines 1094-1128):
cardinal directions clamp a single-tile step to the map bounds; the
target-move sentinel `"to"` with both targets present consults and
refreshes the path cache via `find_path` and consumes the next cached
step; any other direction string leaves the position unchanged. -/
def compute_step (g : Grid) (paths : List (String × List Pos))
    (req : MoveRequest) (old_x old_y : Int) : StepOutcome :=
  if req.direction = "up" then
    .step (old_x, clamp (old_y - 1) 0 (MAP_HEIGHT - 1)) paths
  else if req.direction = "down" then
    .step (old_x, clamp (old_y + 1) 0 (MAP_HEIGHT - 1)) paths
  else if req.direction = "left" then
    .step (clamp (old_x - 1) 0 (MAP_WIDTH - 1), old_y) paths
  else if req.direction = "right" then
    .step (clamp (old_x + 1) 0 (MAP_WIDTH - 1), old_y) paths
  else
    match decide (req.direction = "to"), req.target_x, req.target_y with
    | true, some tx, some ty =>
      let target_x := clamp tx 0 (MAP_WIDTH - 1)
      let target_y := clamp ty 0 (MAP_HEIGHT - 1)
      let current_path := (lookupA paths req.agent_id).getD []
      let recompute :=
        current_path = [] ∨ current_path.getLast? ≠ some (target_x, target_y)
      let current_path' :=
        if recompute then find_path g old_x old_y target_x target_y 500
        else current_path
      let paths' :=
        if recompute then updateA paths req.agent_id current_path' else paths
      match current_path' with
      | [] => .noPath paths'
      | p :: rest => .step p (updateA paths' req.agent_id rest)
    | _, _, _ => .step (old_x, old_y) paths

/-- Commit of a successful move: position applied, `last_seen`
refreshed, `move_count` incremented (main.py lines 1141-1146). -/
def movedAgent (agent : Agent) (new : Pos) (now : Rat) : Agent :=
  { agent with
    x := new.1
    y := new.2
    last_seen := now
    move_count := agent.move_count + 1 }

/-- Nearby scan of `move_agent`: every other agent within Manhattan
distance 5 of the new position, in table order. -/
def nearbyList (agents : List (String × Agent)) (aid : String) (new : Pos) :
    List NearbyAgent :=
  agents.filterMap (fun e =>
    if e.1 ≠ aid then
      if manhattan (e.2.x, e.2.y) new ≤ 5 then
        some ⟨e.1, e.2.name, e.2.emoji, manhattan (e.2.x, e.2.y) new⟩
      else none
    else none)

/-- Endpoint `POST /move` (`move_agent` in main.py), with the wall
clock and the collision grid passed explicitly.  On commit, the
location-visit tracking, location effects and achievement checks of
the source mutate only the omitted feature-layer bag and feed, so they
do not appear; the broadcast is transport.  The nearby scan runs over
the post-commit agent table exactly as in the source. -/
def move_agent (g : Grid) (w : World) (req : MoveRequest) (now : Rat) :
    MoveResult × World :=
  match lookupA w.agents req.agent_id with
  | none => (.notFound, w)
  | some agent =>
    if (check_rate_limit w req.agent_id "move" now).1 = false then
      (.rateLimited, (check_rate_limit w req.agent_id "move" now).2)
    else
      let w₁ := (check_rate_limit w req.agent_id "move" now).2
      match compute_step g w₁.agent_paths req agent.x agent.y with
      | .noPath paths =>
        (.atDestination (agent.x, agent.y), { w₁ with agent_paths := paths })
      | .step new paths =>
        if is_blocked g new.1 new.2 then
          (.blocked (agent.x, agent.y),
            { w₁ with agent_paths := removeA paths req.agent_id })
        else
          let agents' := updateA w₁.agents req.agent_id (movedAgent agent new now)
          (.moved new (nearbyList agents' req.agent_id new),
            { w₁ with agents := agents', agent_paths := paths })

/-! ## Chat (`send_chat` in main.py) -/

/-- Request body of `POST /chat` (`ChatRequest` in main.py); the source
field named `to` is `to_` here, as `to` is a Lean keyword. -/
structure ChatRequest where
  agent_id : String
  message : String
  to_ : Option String
deriving DecidableEq

/-- Outcomes of `send_chat`: 404, 429, the two validation rejections,
and acceptance carrying the stored message id. -/
inductive ChatResult where
  | notFound
  | rateLimited
  | tooLong
  | empty
  | sent (message_id : String)
deriving DecidableEq

/-- Relationship bump of `send_chat`: every other agent within
Manhattan distance 10 gains +2 towards the sender (clamped at 100) and
+1 back; at level 50 the other agent is appended to the sender's
friends list. -/
def chatRelationships (sender_id : String) (sender : Agent)
    (agents : List (String × Agent))
    (rel : List (String × List (String × Int))) :
    List (String × List (String × Int)) × List String :=
  agents.foldl
    (fun acc e =>
      let (rel, friends) := acc
      if e.1 ≠ sender_id ∧ manhattan (e.2.x, e.2.y) (sender.x, sender.y) ≤ 10 then
        let mine := (lookupA rel sender_id).getD []
        let lvl := min 100 ((lookupA mine e.1).getD 0 + 2)
        let rel := updateA rel sender_id (updateA mine e.1 lvl)
        let theirs := (lookupA rel e.1).getD []
        let rel := updateA rel e.1 (updateA theirs sender_id
          (min 100 ((lookupA theirs sender_id).getD 0 + 1)))
        let friends :=
          if 50 ≤ lvl ∧ e.1 ∉ friends then friends ++ [e.1] else friends
        (rel, friends)
      else acc)
    (rel, sender.friends)

/-- Endpoint `POST /chat` (`send_chat` in main.py), with the wall clock
and the generated message id (`uuid`) passed explicitly.  The social
need bump and activity tag touch only the omitted bag; the periodic
`save_world` call and the broadcast are persistence/transport. -/
def send_chat (w : World) (req : ChatRequest) (now : Rat) (new_id : String) :
    ChatResult × World :=
  match lookupA w.agents req.agent_id with
  | none => (.notFound, w)
  | some agent =>
    if (check_rate_limit w req.agent_id "chat" now).1 = false then
      (.rateLimited, (check_rate_limit w req.agent_id "chat" now).2)
    else
      let w₁ := (check_rate_limit w req.agent_id "chat" now).2
      if 500 < req.message.length then (.tooLong, w₁)
      else if req.message.trim.length = 0 then (.empty, w₁)
      else
        let agent' := { agent with
          last_seen := now
          message_count := agent.message_count + 1 }
        let msg : ChatMessage :=
          { id := new_id, from_id := req.agent_id, from_name := agent.name,
            from_emoji := agent.emoji, message := req.message.take 500,
            to_ := req.to_, timestamp := now, x := agent.x, y := agent.y }
        let history := w₁.chat_history ++ [msg]
        let history :=
          if MAX_CHAT_HISTORY < history.length then history.tail else history
        let (rel, friends) :=
          chatRelationships req.agent_id agent' w₁.agents w₁.relationships
        let agent'' := { agent' with friends := friends }
        (.sent new_id,
          { w₁ with agents := updateA w₁.agents req.agent_id agent'',
                    chat_history := history, relationships := rel })

/-! ## Join and leave (`join_world`, `leave_world` in main.py) -/

/-- Lower-casing used by the name checks (`str.lower` on the names the
server handles): maps `Char.toLower` over the characters. -/
def pyLower (s : String) : String := String.mk (s.data.map Char.toLower)

/-- Outcomes of `join_world`: 503 world full, 400 missing token, 401
invalid token, 400 name taken, and success with the fresh agent id. -/
inductive JoinResult where
  | worldFull
  | missingToken
  | invalidToken
  | nameTaken
  | joined (agent_id : String)
deriving DecidableEq

/-- Endpoint `POST /join` (`join_world` in main.py), with the generated
agent id, api key (`uuid`/`secrets`) and the randomly chosen spawn
point passed explicitly.  The order of checks follows the source:
world-full first, then token presence and validity (consuming the
one-time token), then the case-insensitive name check against active
agents, then creation. -/
def join_world (w : World) (token : String) (now : Rat)
    (new_agent_id new_api_key : String) (spawn : Pos) : JoinResult × World :=
  if MAX_AGENTS ≤ w.agents.length then (.worldFull, w)
  else if token = "" then (.missingToken, w)
  else
    match lookupA w.verified_registrations token with
    | none => (.invalidToken, w)
    | some reg =>
      let w₁ := { w with verified_registrations :=
                    removeA w.verified_registrations token }
      if w₁.agents.any (fun e => pyLower e.2.name = pyLower reg.name) then
        (.nameTaken, w₁)
      else
        let agent : Agent :=
          { agent_id := new_agent_id, name := reg.name, emoji := reg.emoji,
            sprite := reg.sprite, x := spawn.1, y := spawn.2,
            last_seen := now, joined_at := now,
            move_count := 0, message_count := 0, friends := [] }
        (.joined new_agent_id,
          { w₁ with
              agents := updateA w₁.agents new_agent_id agent,
              api_keys := updateA w₁.api_keys new_api_key new_agent_id,
              used_twitter_handles := updateA w₁.used_twitter_handles
                (pyLower reg.twitter_handle) new_agent_id })

/-- Outcomes of `leave_world`: 404 or goodbye. -/
inductive LeaveResult where
  | notFound
  | ok (name : String)
deriving DecidableEq

/-- Endpoint `DELETE /leave/{agent_id}` (`leave_world` in main.py):
pops the agent record and deletes the first api key bound to it; the
Twitter-handle binding stays (source comment), and the source touches
neither `agent_paths` nor `rate_limits`.  The broadcast and the
`save_world` call are transport/persistence. -/
def leave_world (w : World) (agent_id : String) : LeaveResult × World :=
  match lookupA w.agents agent_id with
  | none => (.notFound, w)
  | some agent =>
    (.ok agent.name,
      { w with agents := removeA w.agents agent_id,
               api_keys := removeFirstValue w.api_keys agent_id })

/-! ## Snapshot persistence (`save_world`, `load_world` in main.py) -/

/-- Data layout produced by `save_world`: the saved JSON object, with
the `active_events` and `activity_feed` tails omitted (feature layer,
read by no verified property).  JSON encoding and file writing are
the excluded transport. -/
structure Snapshot where
  agents : List (String × Agent)
  api_keys : List (String × String)
  relationships : List (String × List (String × Int))
  romance : List (String × List (String × RomanceRel))
  chat_history : List ChatMessage
  used_twitter_handles : List (String × String)
  saved_at : Rat
deriving DecidableEq

/-- Function `save_world()` in main.py, with the wall clock passed
explicitly: serializes the current state, keeping the last 50 chat
messages (`chat_history[-50:]`). -/
def save_world (w : World) (now : Rat) : Snapshot :=
  { agents := w.agents
    api_keys := w.api_keys
    relationships := w.relationships
    romance := w.romance
    chat_history := w.chat_history.drop (w.chat_history.length - 50)
    used_twitter_handles := w.used_twitter_handles
    saved_at := now }

/-- Function `load_world()` in main.py: restores the saved fields into
a fresh process, whose remaining globals (`verified_registrations`,
`agent_paths`, `rate_limits`) start empty. -/
def load_world (s : Snapshot) : World :=
  { agents := s.agents
    api_keys := s.api_keys
    verified_registrations := []
    used_twitter_handles := s.used_twitter_handles
    agent_paths := []
    rate_limits := []
    chat_history := s.chat_history
    relationships := s.relationships
    romance := s.romance }

/-! ## Facts about the rate limiter -/

theorem check_rate_limit_denied_eq {w : World} {aid act : String} {t : Rat}
    {w' : World} (h : check_rate_limit w aid act t = (false, w')) : w' = w := by
  unfold check_rate_limit at h
  by_cases hc : t - rlLast w aid act < cooldown act
  · rw [if_pos hc] at h
    exact (Prod.mk.injEq _ _ _ _ ▸ h).2.symm
  · rw [if_neg hc] at h
    cases (Prod.mk.injEq _ _ _ _ ▸ h).1

theorem check_rate_limit_fst_iff {w : World} {aid act : String} {t : Rat} :
    (check_rate_limit w aid act t).1 = true ↔ cooldown act ≤ t - rlLast w aid act := by
  unfold check_rate_limit
  by_cases hc : t - rlLast w aid act < cooldown act
  · simp [if_pos hc, not_le.mpr hc]
  · simp [if_neg hc, not_lt.mp hc]

theorem check_rate_limit_allowed_rl {w : World} {aid act : String} {t : Rat}
    (h : (check_rate_limit w aid act t).1 = true) :
    (check_rate_limit w aid act t).2.rate_limits =
      updateA w.rate_limits aid
        (updateA ((lookupA w.rate_limits aid).getD [("move", 0), ("chat", 0)]) act t) := by
  unfold check_rate_limit at h ⊢
  by_cases hc : t - rlLast w aid act < cooldown act
  · rw [if_pos hc] at h; cases h
  · rw [if_neg hc]

theorem rlLast_allowed {w : World} {aid act : String} {t : Rat}
    (h : (check_rate_limit w aid act t).1 = true) :
    rlLast (check_rate_limit w aid act t).2 aid act = t := by
  unfold rlLast
  rw [check_rate_limit_allowed_rl h, lookupA_updateA_self]
  simp [lookupA_updateA_self]

theorem check_rate_limit_agents (w : World) (aid act : String) (t : Rat) :
    (check_rate_limit w aid act t).2.agents = w.agents := by
  unfold check_rate_limit
  by_cases hc : t - rlLast w aid act < cooldown act
  · rw [if_pos hc]
  · rw [if_neg hc]

theorem check_rate_limit_paths (w : World) (aid act : String) (t : Rat) :
    (check_rate_limit w aid act t).2.agent_paths = w.agent_paths := by
  unfold check_rate_limit
  by_cases hc : t - rlLast w aid act < cooldown act
  · rw [if_pos hc]
  · rw [if_neg hc]

/-- The world with every table empty: the startup state before any
data is loaded. -/
def emptyWorld : World := ⟨[], [], [], [], [], [], [], [], []⟩

/-- Concrete post-state of a first allowed move call, used by the C3
witness. -/
def rateWorld : World :=
  { emptyWorld with rate_limits := [("a", [("move", 1), ("chat", 0)])] }

/-- C3: for every action kind with configured cooldown `c` and every
agent, two calls separated by less than `c` seconds have the second
denied while calls separated by at least `c` are both allowed, and a
denied call does not update the recorded last-allowed time, so
consecutive allowed calls are never closer than `c`. -/
theorem C3_rate_limit_cooldown :
    (∀ (w : World) (aid act : String) (t : Rat) (w' : World),
        check_rate_limit w aid act t = (false, w') → w' = w) ∧
    (∀ (w : World) (aid act : String) (t₁ t₂ : Rat) (w₁ : World),
        check_rate_limit w aid act t₁ = (true, w₁) →
        ((t₂ - t₁ < cooldown act → check_rate_limit w₁ aid act t₂ = (false, w₁)) ∧
         (cooldown act ≤ t₂ - t₁ → (check_rate_limit w₁ aid act t₂).1 = true))) := by
  constructor
  · intro w aid act t w' h
    exact check_rate_limit_denied_eq h
  · intro w aid act t₁ t₂ w₁ h
    have hfst : (check_rate_limit w aid act t₁).1 = true := by rw [h]
    have hsnd : (check_rate_limit w aid act t₁).2 = w₁ := by rw [h]
    have hlast : rlLast w₁ aid act = t₁ := by
      rw [← hsnd]; exact rlLast_allowed hfst
    constructor
    · intro hlt
      unfold check_rate_limit
      rw [hlast, if_pos hlt]
    · intro hge
      rw [check_rate_limit_fst_iff, hlast]
      exact hge

/-- Witness for C3 at a concrete world and clock values: a first move
call at t=1 is allowed; a second at t=1.1 is denied and records
nothing; a second at t=1.3 is allowed. -/
theorem cooldown_move : cooldown "move" = 1/5 := by
  simp [cooldown, RATE_LIMITS, lookupA]

theorem cooldown_chat : cooldown "chat" = 2 := by
  simp [cooldown, RATE_LIMITS, lookupA]

theorem C3_rate_limit_cooldown_witness :
    check_rate_limit emptyWorld "a" "move" 1 = (true, rateWorld) ∧
    check_rate_limit rateWorld "a" "move" (11/10) = (false, rateWorld) ∧
    (check_rate_limit rateWorld "a" "move" (13/10)).1 = true := by
  have hlast : rlLast emptyWorld "a" "move" = 0 := by
    simp [rlLast, emptyWorld, lookupA]
  have h : check_rate_limit emptyWorld "a" "move" 1 = (true, rateWorld) := by
    unfold check_rate_limit
    rw [hlast, if_neg (by rw [cooldown_move]; norm_num)]
    simp [emptyWorld, rateWorld, updateA, lookupA]
  refine ⟨h, ?_, ?_⟩
  · exact (C3_rate_limit_cooldown.2 emptyWorld "a" "move" 1 (11/10) rateWorld h).1
      (by rw [cooldown_move]; norm_num)
  · exact (C3_rate_limit_cooldown.2 emptyWorld "a" "move" 1 (13/10) rateWorld h).2
      (by rw [cooldown_move]; norm_num)

/-! ## Case characterization of `move_agent` -/

theorem move_agent_notFound {g : Grid} {w : World} {req : MoveRequest} {now : Rat}
    (hlk : lookupA w.agents req.agent_id = none) :
    move_agent g w req now = (.notFound, w) := by
  simp only [move_agent, hlk]

theorem move_agent_rateLimited {g : Grid} {w : World} {req : MoveRequest}
    {now : Rat} {agent : Agent}
    (hlk : lookupA w.agents req.agent_id = some agent)
    (hrl : (check_rate_limit w req.agent_id "move" now).1 = false) :
    move_agent g w req now = (.rateLimited, (check_rate_limit w req.agent_id "move" now).2) := by
  simp only [move_agent, hlk]
  rw [if_pos hrl]

theorem move_agent_atDestination {g : Grid} {w : World} {req : MoveRequest}
    {now : Rat} {agent : Agent} {paths : List (String × List Pos)}
    (hlk : lookupA w.agents req.agent_id = some agent)
    (hrl : (check_rate_limit w req.agent_id "move" now).1 = true)
    (hcs : compute_step g (check_rate_limit w req.agent_id "move" now).2.agent_paths
      req agent.x agent.y = .noPath paths) :
    move_agent g w req now =
      (.atDestination (agent.x, agent.y),
        { (check_rate_limit w req.agent_id "move" now).2 with agent_paths := paths }) := by
  simp only [move_agent, hlk]
  rw [if_neg (by rw [hrl]; exact fun h => Bool.true_eq_false ▸ h)]
  simp only [hcs]

theorem move_agent_blocked {g : Grid} {w : World} {req : MoveRequest}
    {now : Rat} {agent : Agent} {new : Pos} {paths : List (String × List Pos)}
    (hlk : lookupA w.agents req.agent_id = some agent)
    (hrl : (check_rate_limit w req.agent_id "move" now).1 = true)
    (hcs : compute_step g (check_rate_limit w req.agent_id "move" now).2.agent_paths
      req agent.x agent.y = .step new paths)
    (hb : is_blocked g new.1 new.2 = true) :
    move_agent g w req now =
      (.blocked (agent.x, agent.y),
        { (check_rate_limit w req.agent_id "move" now).2 with
            agent_paths := removeA paths req.agent_id }) := by
  simp only [move_agent, hlk]
  rw [if_neg (by rw [hrl]; exact fun h => Bool.true_eq_false ▸ h)]
  simp only [hcs]
  rw [if_pos hb]

theorem move_agent_moved {g : Grid} {w : World} {req : MoveRequest}
    {now : Rat} {agent : Agent} {new : Pos} {paths : List (String × List Pos)}
    (hlk : lookupA w.agents req.agent_id = some agent)
    (hrl : (check_rate_limit w req.agent_id "move" now).1 = true)
    (hcs : compute_step g (check_rate_limit w req.agent_id "move" now).2.agent_paths
      req agent.x agent.y = .step new paths)
    (hb : is_blocked g new.1 new.2 = false) :
    move_agent g w req now =
      (.moved new
        (nearbyList
          (updateA (check_rate_limit w req.agent_id "move" now).2.agents
            req.agent_id (movedAgent agent new now)) req.agent_id new),
        { (check_rate_limit w req.agent_id "move" now).2 with
            agents := updateA (check_rate_limit w req.agent_id "move" now).2.agents
              req.agent_id (movedAgent agent new now)
            agent_paths := paths }) := by
  simp only [move_agent, hlk]
  rw [if_neg (by rw [hrl]; exact fun h => Bool.true_eq_false ▸ h)]
  simp only [hcs]
  rw [if_neg (by rw [hb]; exact fun h => Bool.false_eq_true ▸ h)]

/-- Inversion: a `moved` outcome can only arise from the unblocked
commit branch, and its position is the computed destination. -/
theorem move_agent_moved_inv {g : Grid} {w : World} {req : MoveRequest}
    {now : Rat} {pos : Pos} {nb : List NearbyAgent}
    (h : (move_agent g w req now).1 = .moved pos nb) :
    ∃ agent paths,
      lookupA w.agents req.agent_id = some agent ∧
      (check_rate_limit w req.agent_id "move" now).1 = true ∧
      compute_step g (check_rate_limit w req.agent_id "move" now).2.agent_paths
        req agent.x agent.y = .step pos paths ∧
      is_blocked g pos.1 pos.2 = false := by
  unfold move_agent at h
  cases hlk : lookupA w.agents req.agent_id with
  | none => simp only [hlk] at h; cases h
  | some agent =>
    simp only [hlk] at h
    by_cases hrl : (check_rate_limit w req.agent_id "move" now).1 = false
    · rw [if_pos hrl] at h; cases h
    · rw [if_neg hrl] at h
      have hrl' : (check_rate_limit w req.agent_id "move" now).1 = true := by
        cases hc : (check_rate_limit w req.agent_id "move" now).1
        · exact absurd hc hrl
        · rfl
      cases hcs : compute_step g (check_rate_limit w req.agent_id "move" now).2.agent_paths
          req agent.x agent.y with
      | noPath paths => simp only [hcs] at h; cases h
      | step new paths =>
        simp only [hcs] at h
        by_cases hb : is_blocked g new.1 new.2 = true
        · rw [if_pos hb] at h; cases h
        · rw [if_neg hb] at h
          have hb' : is_blocked g new.1 new.2 = false := by
            cases hc : is_blocked g new.1 new.2
            · rfl
            · exact absurd hc hb
          simp only [MoveResult.moved.injEq] at h
          obtain ⟨hpos, hnb⟩ := h
          subst hpos
          exact ⟨agent, paths, rfl, hrl', hcs, hb'⟩

theorem clamp_bounds {v lo hi : Int} (h : lo ≤ hi) :
    lo ≤ clamp v lo hi ∧ clamp v lo hi ≤ hi := by
  unfold clamp
  exact ⟨le_max_left _ _, max_le h (min_le_left _ _)⟩

/-- Inversion of the destination computation for non-target moves: the
destination is a single clamped step, or the unchanged position. -/
theorem compute_step_not_to {g : Grid} {paths : List (String × List Pos)}
    {req : MoveRequest} {old_x old_y : Int} {new : Pos}
    {paths' : List (String × List Pos)}
    (hdir : req.direction ≠ "to")
    (h : compute_step g paths req old_x old_y = .step new paths') :
    new = (old_x, clamp (old_y - 1) 0 (MAP_HEIGHT - 1)) ∨
    new = (old_x, clamp (old_y + 1) 0 (MAP_HEIGHT - 1)) ∨
    new = (clamp (old_x - 1) 0 (MAP_WIDTH - 1), old_y) ∨
    new = (clamp (old_x + 1) 0 (MAP_WIDTH - 1), old_y) ∨
    new = (old_x, old_y) := by
  unfold compute_step at h
  by_cases h1 : req.direction = "up"
  · rw [if_pos h1] at h
    exact Or.inl (StepOutcome.step.injEq _ _ _ _ ▸ h).1.symm
  · rw [if_neg h1] at h
    by_cases h2 : req.direction = "down"
    · rw [if_pos h2] at h
      exact Or.inr (Or.inl (StepOutcome.step.injEq _ _ _ _ ▸ h).1.symm)
    · rw [if_neg h2] at h
      by_cases h3 : req.direction = "left"
      · rw [if_pos h3] at h
        exact Or.inr (Or.inr (Or.inl (StepOutcome.step.injEq _ _ _ _ ▸ h).1.symm))
      · rw [if_neg h3] at h
        by_cases h4 : req.direction = "right"
        · rw [if_pos h4] at h
          exact Or.inr (Or.inr (Or.inr (Or.inl
            (StepOutcome.step.injEq _ _ _ _ ▸ h).1.symm)))
        · rw [if_neg h4, decide_eq_false hdir] at h
          refine Or.inr (Or.inr (Or.inr (Or.inr ?_)))
          cases req.target_x <;> cases req.target_y <;>
            · change StepOutcome.step (old_x, old_y) paths = .step new paths' at h
              exact (StepOutcome.step.injEq _ _ _ _ ▸ h).1.symm

theorem compute_step_noop {g : Grid} {paths : List (String × List Pos)}
    {req : MoveRequest} {old_x old_y : Int}
    (h : req.direction ∉ (["up", "down", "left", "right", "to"] : List String)) :
    compute_step g paths req old_x old_y = .step (old_x, old_y) paths := by
  have h1 : ¬(req.direction = "up") := fun e => h (by rw [e]; simp)
  have h2 : ¬(req.direction = "down") := fun e => h (by rw [e]; simp)
  have h3 : ¬(req.direction = "left") := fun e => h (by rw [e]; simp)
  have h4 : ¬(req.direction = "right") := fun e => h (by rw [e]; simp)
  have h5 : ¬(req.direction = "to") := fun e => h (by rw [e]; simp)
  unfold compute_step
  rw [if_neg h1, if_neg h2, if_neg h3, if_neg h4, decide_eq_false h5]

/-! ### In-map positions and the path cache on an open grid -/

/-- The position lies inside the `MAP_WIDTH x MAP_HEIGHT` world. -/
def inMap (p : Pos) : Prop :=
  0 ≤ p.1 ∧ p.1 < MAP_WIDTH ∧ 0 ≤ p.2 ∧ p.2 < MAP_HEIGHT

theorem clamp_in_bounds_x (v : Int) :
    0 ≤ clamp v 0 (MAP_WIDTH - 1) ∧ clamp v 0 (MAP_WIDTH - 1) < MAP_WIDTH := by
  have h := @clamp_bounds v 0 (MAP_WIDTH - 1) (by decide)
  exact ⟨h.1, lt_of_le_of_lt h.2 (by decide)⟩

theorem clamp_in_bounds_y (v : Int) :
    0 ≤ clamp v 0 (MAP_HEIGHT - 1) ∧ clamp v 0 (MAP_HEIGHT - 1) < MAP_HEIGHT := by
  have h := @clamp_bounds v 0 (MAP_HEIGHT - 1) (by decide)
  exact ⟨h.1, lt_of_le_of_lt h.2 (by decide)⟩

theorem find_path_empty_inMap {g : Grid} (hg : g.data = []) {sx sy : Int}
    (tx ty : Int) {ms : Nat} (hs1 : 0 ≤ sx) (hs2 : sx < MAP_WIDTH)
    (hs3 : 0 ≤ sy) (hs4 : sy < MAP_HEIGHT) :
    ∀ p ∈ find_path g sx sy (clamp tx 0 (MAP_WIDTH - 1))
      (clamp ty 0 (MAP_HEIGHT - 1)) ms, inMap p := by
  intro p hp
  have hx := clamp_in_bounds_x tx
  have hy := clamp_in_bounds_y ty
  exact find_path_empty_bounds hg hs1 hs2 hs3 hs4 hx.1 hx.2 hy.1 hy.2 p hp

theorem lookupA_mem {κ α : Type} [DecidableEq κ] :
    ∀ (l : List (κ × α)) (k : κ) (v : α), lookupA l k = some v → (k, v) ∈ l := by
  intro l
  induction l with
  | nil =>
    intro k v h
    exact Option.noConfusion h
  | cons e rest ih =>
    intro k v h
    obtain ⟨k2, v2⟩ := e
    rw [lookupA] at h
    by_cases hk : k2 = k
    · rw [if_pos hk] at h
      injection h with h2
      subst hk
      subst h2
      exact List.mem_cons.mpr (Or.inl rfl)
    · rw [if_neg hk] at h
      exact List.mem_cons.mpr (Or.inr (ih k v h))

theorem mem_updateA {κ α : Type} [DecidableEq κ] :
    ∀ (l : List (κ × α)) (k : κ) (v : α) (e : κ × α),
      e ∈ updateA l k v → e = (k, v) ∨ e ∈ l := by
  intro l
  induction l with
  | nil =>
    intro k v e he
    rw [updateA] at he
    rcases List.mem_cons.mp he with rfl | he2
    · exact Or.inl rfl
    · exact absurd he2 (List.not_mem_nil e)
  | cons x rest ih =>
    intro k v e he
    obtain ⟨k2, v2⟩ := x
    rw [updateA] at he
    by_cases hk : k2 = k
    · rw [if_pos hk] at he
      rcases List.mem_cons.mp he with rfl | he2
      · exact Or.inl rfl
      · exact Or.inr (List.mem_cons.mpr (Or.inr he2))
    · rw [if_neg hk] at he
      rcases List.mem_cons.mp he with rfl | he2
      · exact Or.inr (List.mem_cons.mpr (Or.inl rfl))
      · rcases ih k v e he2 with h3 | h3
        · exact Or.inl h3
        · exact Or.inr (List.mem_cons.mpr (Or.inr h3))

theorem mem_removeA {κ α : Type} [DecidableEq κ] :
    ∀ (l : List (κ × α)) (k : κ) (e : κ × α), e ∈ removeA l k → e ∈ l := by
  intro l
  induction l with
  | nil =>
    intro k e he
    exact absurd he (List.not_mem_nil e)
  | cons x rest ih =>
    intro k e he
    obtain ⟨k2, v2⟩ := x
    rw [removeA] at he
    by_cases hk : k2 = k
    · rw [if_pos hk] at he
      exact List.mem_cons.mpr (Or.inr he)
    · rw [if_neg hk] at he
      rcases List.mem_cons.mp he with rfl | he2
      · exact List.mem_cons.mpr (Or.inl rfl)
      · exact List.mem_cons.mpr (Or.inr (ih k e he2))

/-- On an open grid, starting in bounds with an in-bounds path cache,
the destination computation yields an in-bounds destination, and both
outcomes carry a path cache whose every cell is in bounds. -/
theorem compute_step_empty_inv {g : Grid} (hg : g.data = [])
    {paths : List (String × List Pos)} {req : MoveRequest} {old_x old_y : Int}
    (h0x : 0 ≤ old_x) (h1x : old_x < MAP_WIDTH)
    (h0y : 0 ≤ old_y) (h1y : old_y < MAP_HEIGHT)
    (hcache : ∀ e ∈ paths, ∀ q ∈ e.2, inMap q) :
    (∀ new paths2, compute_step g paths req old_x old_y = .step new paths2 →
      inMap new ∧ ∀ e ∈ paths2, ∀ q ∈ e.2, inMap q) ∧
    (∀ paths2, compute_step g paths req old_x old_y = .noPath paths2 →
      ∀ e ∈ paths2, ∀ q ∈ e.2, inMap q) := by
  by_cases h1 : req.direction = "up"
  · have hc : compute_step g paths req old_x old_y =
        .step (old_x, clamp (old_y - 1) 0 (MAP_HEIGHT - 1)) paths := by
      unfold compute_step
      rw [if_pos h1]
    constructor
    · intro new paths2 h
      rw [hc] at h
      injection h with ha hb
      subst hb
      rw [← ha]
      exact ⟨⟨h0x, h1x, (clamp_in_bounds_y (old_y - 1)).1,
        (clamp_in_bounds_y (old_y - 1)).2⟩, hcache⟩
    · intro paths2 h
      rw [hc] at h
      exact StepOutcome.noConfusion h
  · by_cases h2 : req.direction = "down"
    · have hc : compute_step g paths req old_x old_y =
          .step (old_x, clamp (old_y + 1) 0 (MAP_HEIGHT - 1)) paths := by
        unfold compute_step
        rw [if_neg h1, if_pos h2]
      constructor
      · intro new paths2 h
        rw [hc] at h
        injection h with ha hb
        subst hb
        rw [← ha]
        exact ⟨⟨h0x, h1x, (clamp_in_bounds_y (old_y + 1)).1,
          (clamp_in_bounds_y (old_y + 1)).2⟩, hcache⟩
      · intro paths2 h
        rw [hc] at h
        exact StepOutcome.noConfusion h
    · by_cases h3 : req.direction = "left"
      · have hc : compute_step g paths req old_x old_y =
            .step (clamp (old_x - 1) 0 (MAP_WIDTH - 1), old_y) paths := by
          unfold compute_step
          rw [if_neg h1, if_neg h2, if_pos h3]
        constructor
        · intro new paths2 h
          rw [hc] at h
          injection h with ha hb
          subst hb
          rw [← ha]
          exact ⟨⟨(clamp_in_bounds_x (old_x - 1)).1,
            (clamp_in_bounds_x (old_x - 1)).2, h0y, h1y⟩, hcache⟩
        · intro paths2 h
          rw [hc] at h
          exact StepOutcome.noConfusion h
      · by_cases h4 : req.direction = "right"
        · have hc : compute_step g paths req old_x old_y =
              .step (clamp (old_x + 1) 0 (MAP_WIDTH - 1), old_y) paths := by
            unfold compute_step
            rw [if_neg h1, if_neg h2, if_neg h3, if_pos h4]
          constructor
          · intro new paths2 h
            rw [hc] at h
            injection h with ha hb
            subst hb
            rw [← ha]
            exact ⟨⟨(clamp_in_bounds_x (old_x + 1)).1,
              (clamp_in_bounds_x (old_x + 1)).2, h0y, h1y⟩, hcache⟩
          · intro paths2 h
            rw [hc] at h
            exact StepOutcome.noConfusion h
        · by_cases h5 : req.direction = "to"
          · -- target-move branch
            cases htx : req.target_x with
            | none =>
              have hc : compute_step g paths req old_x old_y =
                  .step (old_x, old_y) paths := by
                unfold compute_step
                rw [if_neg h1, if_neg h2, if_neg h3, if_neg h4, htx]
                rw [show decide (req.direction = "to") = true from by
                  rw [h5]; decide]
              constructor
              · intro new paths2 h
                rw [hc] at h
                injection h with ha hb
                subst hb
                rw [← ha]
                exact ⟨⟨h0x, h1x, h0y, h1y⟩, hcache⟩
              · intro paths2 h
                rw [hc] at h
                exact StepOutcome.noConfusion h
            | some tx =>
              cases hty : req.target_y with
              | none =>
                have hc : compute_step g paths req old_x old_y =
                    .step (old_x, old_y) paths := by
                  unfold compute_step
                  rw [if_neg h1, if_neg h2, if_neg h3, if_neg h4, htx, hty]
                  rw [show decide (req.direction = "to") = true from by
                    rw [h5]; decide]
                constructor
                · intro new paths2 h
                  rw [hc] at h
                  injection h with ha hb
                  subst hb
                  rw [← ha]
                  exact ⟨⟨h0x, h1x, h0y, h1y⟩, hcache⟩
                · intro paths2 h
                  rw [hc] at h
                  exact StepOutcome.noConfusion h
              | some ty =>
                cases hlk : lookupA paths req.agent_id with
                | none =>
                  cases hcp : find_path g old_x old_y (clamp tx 0 (MAP_WIDTH - 1))
                      (clamp ty 0 (MAP_HEIGHT - 1)) 500 with
                  | nil =>
                    have hc : compute_step g paths req old_x old_y =
                        .noPath (updateA paths req.agent_id []) := by
                      unfold compute_step
                      rw [if_neg h1, if_neg h2, if_neg h3, if_neg h4, htx, hty]
                      rw [show decide (req.direction = "to") = true from by
                        rw [h5]; decide]
                      rw [hlk, Option.getD_none]
                      dsimp only
                      rw [if_pos (Or.inl rfl), if_pos (Or.inl rfl), hcp]
                    constructor
                    · intro new paths2 h
                      rw [hc] at h
                      exact StepOutcome.noConfusion h
                    · intro paths2 h
                      rw [hc] at h
                      injection h with ha
                      subst ha
                      intro e he q hq
                      rcases mem_updateA _ _ _ _ he with rfl | he2
                      · exact absurd hq (List.not_mem_nil q)
                      · exact hcache e he2 q hq
                  | cons p rest =>
                    have hc : compute_step g paths req old_x old_y =
                        .step p (updateA (updateA paths req.agent_id (p :: rest))
                          req.agent_id rest) := by
                      unfold compute_step
                      rw [if_neg h1, if_neg h2, if_neg h3, if_neg h4, htx, hty]
                      rw [show decide (req.direction = "to") = true from by
                        rw [h5]; decide]
                      rw [hlk, Option.getD_none]
                      dsimp only
                      rw [if_pos (Or.inl rfl), if_pos (Or.inl rfl), hcp]
                    have hfp : ∀ q ∈ (p :: rest), inMap q := by
                      intro q hq
                      rw [← hcp] at hq
                      exact find_path_empty_inMap hg tx ty h0x h1x h0y h1y q hq
                    constructor
                    · intro new paths2 h
                      rw [hc] at h
                      injection h with ha hb
                      subst hb
                      rw [← ha]
                      refine ⟨hfp p (List.mem_cons.mpr (Or.inl rfl)), ?_⟩
                      intro e he q hq
                      rcases mem_updateA _ _ _ _ he with rfl | he2
                      · exact hfp q (List.mem_cons.mpr (Or.inr hq))
                      · rcases mem_updateA _ _ _ _ he2 with rfl | he3
                        · exact hfp q hq
                        · exact hcache e he3 q hq
                    · intro paths2 h
                      rw [hc] at h
                      exact StepOutcome.noConfusion h
                | some cp =>
                  cases hcp0 : cp with
                  | nil =>
                    cases hcp : find_path g old_x old_y (clamp tx 0 (MAP_WIDTH - 1))
                        (clamp ty 0 (MAP_HEIGHT - 1)) 500 with
                    | nil =>
                      have hc : compute_step g paths req old_x old_y =
                          .noPath (updateA paths req.agent_id []) := by
                        unfold compute_step
                        rw [if_neg h1, if_neg h2, if_neg h3, if_neg h4, htx, hty]
                        rw [show decide (req.direction = "to") = true from by
                          rw [h5]; decide]
                        rw [hcp0] at hlk
                        rw [hlk, Option.getD_some]
                        dsimp only
                        rw [if_pos (Or.inl rfl), if_pos (Or.inl rfl), hcp]
                      constructor
                      · intro new paths2 h
                        rw [hc] at h
                        exact StepOutcome.noConfusion h
                      · intro paths2 h
                        rw [hc] at h
                        injection h with ha
                        subst ha
                        intro e he q hq
                        rcases mem_updateA _ _ _ _ he with rfl | he2
                        · exact absurd hq (List.not_mem_nil q)
                        · exact hcache e he2 q hq
                    | cons p rest =>
                      have hc : compute_step g paths req old_x old_y =
                          .step p (updateA (updateA paths req.agent_id (p :: rest))
                            req.agent_id rest) := by
                        unfold compute_step
                        rw [if_neg h1, if_neg h2, if_neg h3, if_neg h4, htx, hty]
                        rw [show decide (req.direction = "to") = true from by
                          rw [h5]; decide]
                        rw [hcp0] at hlk
                        rw [hlk, Option.getD_some]
                        dsimp only
                        rw [if_pos (Or.inl rfl), if_pos (Or.inl rfl), hcp]
                      have hfp : ∀ q ∈ (p :: rest), inMap q := by
                        intro q hq
                        rw [← hcp] at hq
                        exact find_path_empty_inMap hg tx ty h0x h1x h0y h1y q hq
                      constructor
                      · intro new paths2 h
                        rw [hc] at h
                        injection h with ha hb
                        subst hb
                        rw [← ha]
                        refine ⟨hfp p (List.mem_cons.mpr (Or.inl rfl)), ?_⟩
                        intro e he q hq
                        rcases mem_updateA _ _ _ _ he with rfl | he2
                        · exact hfp q (List.mem_cons.mpr (Or.inr hq))
                        · rcases mem_updateA _ _ _ _ he2 with rfl | he3
                          · exact hfp q hq
                          · exact hcache e he3 q hq
                      · intro paths2 h
                        rw [hc] at h
                        exact StepOutcome.noConfusion h
                  | cons cph cpt =>
                    have hcmem : ∀ q ∈ cph :: cpt, inMap q := by
                      intro q hq
                      refine hcache (req.agent_id, cph :: cpt) ?_ q hq
                      rw [← hcp0]
                      exact lookupA_mem _ _ _ hlk
                    by_cases hrec : ((cph :: cpt : List Pos) = [] ∨
                        (cph :: cpt : List Pos).getLast? ≠
                          some (clamp tx 0 (MAP_WIDTH - 1), clamp ty 0 (MAP_HEIGHT - 1)))
                    · cases hcp : find_path g old_x old_y (clamp tx 0 (MAP_WIDTH - 1))
                          (clamp ty 0 (MAP_HEIGHT - 1)) 500 with
                      | nil =>
                        have hc : compute_step g paths req old_x old_y =
                            .noPath (updateA paths req.agent_id []) := by
                          unfold compute_step
                          rw [if_neg h1, if_neg h2, if_neg h3, if_neg h4, htx, hty]
                          rw [show decide (req.direction = "to") = true from by
                            rw [h5]; decide]
                          rw [hcp0] at hlk
                          rw [hlk, Option.getD_some]
                          dsimp only
                          rw [if_pos hrec, if_pos hrec, hcp]
                        constructor
                        · intro new paths2 h
                          rw [hc] at h
                          exact StepOutcome.noConfusion h
                        · intro paths2 h
                          rw [hc] at h
                          injection h with ha
                          subst ha
                          intro e he q hq
                          rcases mem_updateA _ _ _ _ he with rfl | he2
                          · exact absurd hq (List.not_mem_nil q)
                          · exact hcache e he2 q hq
                      | cons p rest =>
                        have hc : compute_step g paths req old_x old_y =
                            .step p (updateA (updateA paths req.agent_id (p :: rest))
                              req.agent_id rest) := by
                          unfold compute_step
                          rw [if_neg h1, if_neg h2, if_neg h3, if_neg h4, htx, hty]
                          rw [show decide (req.direction = "to") = true from by
                            rw [h5]; decide]
                          rw [hcp0] at hlk
                          rw [hlk, Option.getD_some]
                          dsimp only
                          rw [if_pos hrec, if_pos hrec, hcp]
                        have hfp : ∀ q ∈ (p :: rest), inMap q := by
                          intro q hq
                          rw [← hcp] at hq
                          exact find_path_empty_inMap hg tx ty h0x h1x h0y h1y q hq
                        constructor
                        · intro new paths2 h
                          rw [hc] at h
                          injection h with ha hb
                          subst hb
                          rw [← ha]
                          refine ⟨hfp p (List.mem_cons.mpr (Or.inl rfl)), ?_⟩
                          intro e he q hq
                          rcases mem_updateA _ _ _ _ he with rfl | he2
                          · exact hfp q (List.mem_cons.mpr (Or.inr hq))
                          · rcases mem_updateA _ _ _ _ he2 with rfl | he3
                            · exact hfp q hq
                            · exact hcache e he3 q hq
                        · intro paths2 h
                          rw [hc] at h
                          exact StepOutcome.noConfusion h
                    · have hc : compute_step g paths req old_x old_y =
                          .step cph (updateA paths req.agent_id cpt) := by
                        unfold compute_step
                        rw [if_neg h1, if_neg h2, if_neg h3, if_neg h4, htx, hty]
                        rw [show decide (req.direction = "to") = true from by
                          rw [h5]; decide]
                        rw [hcp0] at hlk
                        rw [hlk, Option.getD_some]
                        dsimp only
                        rw [if_neg hrec, if_neg hrec]
                      constructor
                      · intro new paths2 h
                        rw [hc] at h
                        injection h with ha hb
                        subst hb
                        rw [← ha]
                        refine ⟨hcmem cph (List.mem_cons.mpr (Or.inl rfl)), ?_⟩
                        intro e he q hq
                        rcases mem_updateA _ _ _ _ he with rfl | he2
                        · exact hcmem q (List.mem_cons.mpr (Or.inr hq))
                        · exact hcache e he2 q hq
                      · intro paths2 h
                        rw [hc] at h
                        exact StepOutcome.noConfusion h
          · -- unrecognized direction
            have hc : compute_step g paths req old_x old_y =
                .step (old_x, old_y) paths :=
              compute_step_noop (by
                intro hmem
                simp only [List.mem_cons, List.mem_singleton] at hmem
                rcases hmem with h | h | h | h | h
                · exact h1 h
                · exact h2 h
                · exact h3 h
                · exact h4 h
                · exact h5 (by simpa using h))
            constructor
            · intro new paths2 h
              rw [hc] at h
              injection h with ha hb
              subst hb
              rw [← ha]
              exact ⟨⟨h0x, h1x, h0y, h1y⟩, hcache⟩
            · intro paths2 h
              rw [hc] at h
              exact StepOutcome.noConfusion h

/-! ## Concrete scenario data for witnesses and counterexamples -/

/-- Scenario 10 x 10 collision map with tiles (5,5), (4,5), (5,4) and
(5,6) blocked and (6,5) free: the spec scenario "agent at (5,5), goal
(5,5) blocked, nearest free tile at (6,5)". -/
def scenarioGrid : Grid :=
  ⟨10, 10, (List.range 100).map
    (fun i => if i = 45 ∨ i = 54 ∨ i = 55 ∨ i = 65 then 1 else 0)⟩

/-- Fully blocked 3 x 3 collision map. -/
def blockedGrid : Grid := ⟨3, 3, [1, 1, 1, 1, 1, 1, 1, 1, 1]⟩

/-- Concrete agent standing at (1, 1). -/
def agentA : Agent :=
  { agent_id := "a", name := "Crab", emoji := "C", sprite := "Eddy_Lin",
    x := 1, y := 1, last_seen := 0, joined_at := 0,
    move_count := 0, message_count := 0, friends := [] }

/-- Concrete world holding only `agentA`. -/
def worldA : World := { emptyWorld with agents := [("a", agentA)] }

theorem rlLast_worldA : rlLast worldA "a" "move" = 0 := by
  simp [rlLast, worldA, emptyWorld, lookupA]

theorem worldA_move_allowed : (check_rate_limit worldA "a" "move" 1).1 = true := by
  rw [check_rate_limit_fst_iff, rlLast_worldA, cooldown_move]
  norm_num

theorem worldA_moved :
    (move_agent scenarioGrid worldA ⟨"a", "right", none, none⟩ 1).1 =
      MoveResult.moved (2, 1) [] := by
  have hlk : lookupA worldA.agents
      (MoveRequest.mk "a" "right" none none).agent_id = some agentA := rfl
  have hpaths : (check_rate_limit worldA "a" "move" 1).2.agent_paths = [] := by
    rw [check_rate_limit_paths]; rfl
  have hcs : compute_step scenarioGrid
      (check_rate_limit worldA "a" "move" 1).2.agent_paths
      ⟨"a", "right", none, none⟩ agentA.x agentA.y = .step (2, 1) [] := by
    rw [hpaths]; decide
  have hb : is_blocked scenarioGrid 2 1 = false := by decide
  rw [move_agent_moved hlk worldA_move_allowed hcs hb]
  simp only [check_rate_limit_agents]
  decide

/-- Concrete unrecognized-direction move on the open grid, for the C1
witness: the position stays (1, 1). -/
theorem worldA_jump_moved :
    (move_agent openGrid worldA ⟨"a", "jump", none, none⟩ 1).1 =
      MoveResult.moved (1, 1) [] := by
  have hlk : lookupA worldA.agents
      (MoveRequest.mk "a" "jump" none none).agent_id = some agentA := rfl
  have hcs : compute_step openGrid
      (check_rate_limit worldA "a" "move" 1).2.agent_paths
      ⟨"a", "jump", none, none⟩ agentA.x agentA.y =
        .step (1, 1) (check_rate_limit worldA "a" "move" 1).2.agent_paths :=
    compute_step_noop (by decide)
  rw [move_agent_moved hlk worldA_move_allowed hcs (by decide)]
  simp only [check_rate_limit_agents]
  decide

/-- Concrete committed target-based move on the open grid, for the C1
witness: from (1, 1) towards (3, 1), the first path step (2, 1) is
committed and the remaining path [(3, 1)] is cached. -/
theorem worldA_to_moved :
    (move_agent openGrid worldA ⟨"a", "to", some 3, some 1⟩ 1).1 =
      MoveResult.moved (2, 1) [] ∧
    (move_agent openGrid worldA ⟨"a", "to", some 3, some 1⟩ 1).2.agent_paths =
      [("a", [(3, 1)])] := by
  have hlk : lookupA worldA.agents
      (MoveRequest.mk "a" "to" (some 3) (some 1)).agent_id = some agentA := rfl
  have hpaths : (check_rate_limit worldA "a" "move" 1).2.agent_paths = [] := by
    rw [check_rate_limit_paths]; rfl
  have hcs : compute_step openGrid
      (check_rate_limit worldA "a" "move" 1).2.agent_paths
      ⟨"a", "to", some 3, some 1⟩ agentA.x agentA.y =
        .step (2, 1) [("a", [(3, 1)])] := by
    rw [hpaths]; decide
  have hb : is_blocked openGrid (2 : Int) (1 : Int) = false := by decide
  rw [move_agent_moved hlk worldA_move_allowed hcs hb]
  constructor
  · simp only [check_rate_limit_agents]
    decide
  · rfl

/-- C1: every successful move commits a position that passes the
`is_blocked` guard and stays within the map bounds.  Part 1: with a
loaded (nonempty) collision map, an unblocked position is inside the
map dimensions.  Part 2: on any grid, a committed non-target move from
an in-bounds position stays within `MAP_WIDTH x MAP_HEIGHT`, because
each single-tile step is clamped.  Part 3: with no collision map
(where `is_blocked` is constantly false and A* explores freely), every
committed move, target-based ones included, stays within
`MAP_WIDTH x MAP_HEIGHT`, given the data-model invariants that the
agent is in bounds and every cached path cell is in bounds.  Part 4:
the cached-path invariant used in part 3 is itself preserved by every
move call on such a grid. -/
theorem C1_move_unblocked_in_bounds :
    (∀ (g : Grid) (w : World) (req : MoveRequest) (now : Rat)
      (pos : Pos) (nb : List NearbyAgent),
      g.data ≠ [] →
      (move_agent g w req now).1 = .moved pos nb →
      is_blocked g pos.1 pos.2 = false ∧
      0 ≤ pos.1 ∧ pos.1 < g.width ∧ 0 ≤ pos.2 ∧ pos.2 < g.height) ∧
    (∀ (g : Grid) (w : World) (req : MoveRequest) (now : Rat)
      (pos : Pos) (nb : List NearbyAgent) (agent : Agent),
      lookupA w.agents req.agent_id = some agent →
      0 ≤ agent.x → agent.x < MAP_WIDTH → 0 ≤ agent.y → agent.y < MAP_HEIGHT →
      req.direction ≠ "to" →
      (move_agent g w req now).1 = .moved pos nb →
      is_blocked g pos.1 pos.2 = false ∧
      0 ≤ pos.1 ∧ pos.1 < MAP_WIDTH ∧ 0 ≤ pos.2 ∧ pos.2 < MAP_HEIGHT) ∧
    (∀ (g : Grid) (w : World) (req : MoveRequest) (now : Rat)
      (pos : Pos) (nb : List NearbyAgent) (agent : Agent),
      g.data = [] →
      lookupA w.agents req.agent_id = some agent →
      0 ≤ agent.x → agent.x < MAP_WIDTH → 0 ≤ agent.y → agent.y < MAP_HEIGHT →
      (∀ e ∈ w.agent_paths, ∀ q ∈ e.2,
        0 ≤ q.1 ∧ q.1 < MAP_WIDTH ∧ 0 ≤ q.2 ∧ q.2 < MAP_HEIGHT) →
      (move_agent g w req now).1 = .moved pos nb →
      is_blocked g pos.1 pos.2 = false ∧
      0 ≤ pos.1 ∧ pos.1 < MAP_WIDTH ∧ 0 ≤ pos.2 ∧ pos.2 < MAP_HEIGHT) ∧
    (∀ (g : Grid) (w : World) (req : MoveRequest) (now : Rat),
      g.data = [] →
      (∀ agent, lookupA w.agents req.agent_id = some agent →
        0 ≤ agent.x ∧ agent.x < MAP_WIDTH ∧ 0 ≤ agent.y ∧ agent.y < MAP_HEIGHT) →
      (∀ e ∈ w.agent_paths, ∀ q ∈ e.2,
        0 ≤ q.1 ∧ q.1 < MAP_WIDTH ∧ 0 ≤ q.2 ∧ q.2 < MAP_HEIGHT) →
      ∀ e ∈ (move_agent g w req now).2.agent_paths, ∀ q ∈ e.2,
        0 ≤ q.1 ∧ q.1 < MAP_WIDTH ∧ 0 ≤ q.2 ∧ q.2 < MAP_HEIGHT) := by
  refine ⟨?_, ?_, ?_, ?_⟩
  · intro g w req now pos nb hg h
    obtain ⟨agent, paths, hlk, hrl, hcs, hb⟩ := move_agent_moved_inv h
    exact ⟨hb, is_blocked_false_bounds hg hb⟩
  · intro g w req now pos nb agent hlk h0x h1x h0y h1y hdir h
    obtain ⟨agent', paths, hlk', hrl, hcs, hb⟩ := move_agent_moved_inv h
    have hag : agent' = agent := by
      rw [hlk] at hlk'
      exact (Option.some.injEq _ _ ▸ hlk').symm
    rw [hag] at hcs
    refine ⟨hb, ?_⟩
    have hh : (0 : Int) ≤ MAP_HEIGHT - 1 := by decide
    have hw : (0 : Int) ≤ MAP_WIDTH - 1 := by decide
    rcases compute_step_not_to hdir hcs with h5 | h5 | h5 | h5 | h5 <;> subst h5
    · have hc := @clamp_bounds (agent.y - 1) 0 (MAP_HEIGHT - 1) hh
      exact ⟨h0x, h1x, hc.1, lt_of_le_of_lt hc.2 (by decide)⟩
    · have hc := @clamp_bounds (agent.y + 1) 0 (MAP_HEIGHT - 1) hh
      exact ⟨h0x, h1x, hc.1, lt_of_le_of_lt hc.2 (by decide)⟩
    · have hc := @clamp_bounds (agent.x - 1) 0 (MAP_WIDTH - 1) hw
      exact ⟨hc.1, lt_of_le_of_lt hc.2 (by decide), h0y, h1y⟩
    · have hc := @clamp_bounds (agent.x + 1) 0 (MAP_WIDTH - 1) hw
      exact ⟨hc.1, lt_of_le_of_lt hc.2 (by decide), h0y, h1y⟩
    · exact ⟨h0x, h1x, h0y, h1y⟩
  · intro g w req now pos nb agent hg hlk h0x h1x h0y h1y hcache h
    obtain ⟨agent', paths, hlk', hrl, hcs, hb⟩ := move_agent_moved_inv h
    have hag : agent' = agent := by
      rw [hlk] at hlk'
      exact (Option.some.injEq _ _ ▸ hlk').symm
    rw [hag] at hcs
    rw [check_rate_limit_paths] at hcs
    have hinv := @compute_step_empty_inv g hg w.agent_paths req agent.x agent.y
      h0x h1x h0y h1y hcache
    exact ⟨hb, ((hinv.1 pos paths hcs).1 : inMap pos)⟩
  · intro g w req now hg hag hcache
    unfold move_agent
    cases hlk : lookupA w.agents req.agent_id with
    | none =>
      exact hcache
    | some agent =>
      obtain ⟨hax1, hax2, hay1, hay2⟩ := hag agent hlk
      dsimp only
      by_cases hrl : (check_rate_limit w req.agent_id "move" now).1 = false
      · rw [if_pos hrl]
        dsimp only
        rw [check_rate_limit_paths]
        exact hcache
      · rw [if_neg hrl]
        have hinv := @compute_step_empty_inv g hg
          (check_rate_limit w req.agent_id "move" now).2.agent_paths req
          agent.x agent.y hax1 hax2 hay1 hay2
          (by rw [check_rate_limit_paths]; exact hcache)
        cases hcs : compute_step g (check_rate_limit w req.agent_id "move" now).2.agent_paths
            req agent.x agent.y with
        | noPath paths2 =>
          simp only [hcs]
          exact hinv.2 paths2 hcs
        | step new paths2 =>
          simp only [hcs]
          by_cases hbl : is_blocked g new.1 new.2 = true
          · rw [if_pos hbl]
            intro e he q hq
            exact (hinv.1 new paths2 hcs).2 e (mem_removeA _ _ _ he) q hq
          · rw [if_neg hbl]
            exact (hinv.1 new paths2 hcs).2

/-- Witness for C1 at concrete inputs, exercising all four parts: a
committed cardinal move on the loaded scenario map ends unblocked and
in bounds; a committed non-target move on the open grid stays within
the map dimensions; a committed target-based move on the open grid
stays within the map dimensions; and the path cached by that move is
in bounds. -/
theorem C1_move_unblocked_in_bounds_witness :
    (scenarioGrid.data ≠ [] ∧
      (move_agent scenarioGrid worldA ⟨"a", "right", none, none⟩ 1).1 =
        MoveResult.moved (2, 1) [] ∧
      (is_blocked scenarioGrid ((2 : Int), (1 : Int)).1 ((2 : Int), (1 : Int)).2 = false ∧
        (0 : Int) ≤ ((2 : Int), (1 : Int)).1 ∧
        ((2 : Int), (1 : Int)).1 < scenarioGrid.width ∧
        (0 : Int) ≤ ((2 : Int), (1 : Int)).2 ∧
        ((2 : Int), (1 : Int)).2 < scenarioGrid.height)) ∧
    (is_blocked openGrid ((1 : Int), (1 : Int)).1 ((1 : Int), (1 : Int)).2 = false ∧
      (0 : Int) ≤ ((1 : Int), (1 : Int)).1 ∧
      ((1 : Int), (1 : Int)).1 < MAP_WIDTH ∧
      (0 : Int) ≤ ((1 : Int), (1 : Int)).2 ∧
      ((1 : Int), (1 : Int)).2 < MAP_HEIGHT) ∧
    (is_blocked openGrid ((2 : Int), (1 : Int)).1 ((2 : Int), (1 : Int)).2 = false ∧
      (0 : Int) ≤ ((2 : Int), (1 : Int)).1 ∧
      ((2 : Int), (1 : Int)).1 < MAP_WIDTH ∧
      (0 : Int) ≤ ((2 : Int), (1 : Int)).2 ∧
      ((2 : Int), (1 : Int)).2 < MAP_HEIGHT) ∧
    ((0 : Int) ≤ ((3 : Int), (1 : Int)).1 ∧
      ((3 : Int), (1 : Int)).1 < MAP_WIDTH ∧
      (0 : Int) ≤ ((3 : Int), (1 : Int)).2 ∧
      ((3 : Int), (1 : Int)).2 < MAP_HEIGHT) :=
  ⟨⟨by decide, worldA_moved,
      C1_move_unblocked_in_bounds.1 scenarioGrid worldA ⟨"a", "right", none, none⟩ 1
        (2, 1) [] (by decide) worldA_moved⟩,
    C1_move_unblocked_in_bounds.2.1 openGrid worldA ⟨"a", "jump", none, none⟩ 1
      (1, 1) [] agentA rfl (by decide) (by decide) (by decide) (by decide)
      (by decide) worldA_jump_moved,
    C1_move_unblocked_in_bounds.2.2.1 openGrid worldA ⟨"a", "to", some 3, some 1⟩ 1
      (2, 1) [] agentA rfl rfl (by decide) (by decide) (by decide) (by decide)
      (fun e he => absurd he (List.not_mem_nil e)) worldA_to_moved.1,
    C1_move_unblocked_in_bounds.2.2.2 openGrid worldA ⟨"a", "to", some 3, some 1⟩ 1
      rfl (fun a ha => by
        rw [show lookupA worldA.agents "a" = some agentA from rfl] at ha
        injection ha with ha2
        rw [← ha2]
        decide)
      (fun e he => absurd he (List.not_mem_nil e))
      ("a", [(3, 1)])
      (by rw [worldA_to_moved.2]
          exact List.mem_cons.mpr (Or.inl rfl))
      (3, 1) (List.mem_cons.mpr (Or.inl rfl))⟩

/-! ## Claim C6: blocked rejection versus commit -/

theorem mem_nearbyList {agents : List (String × Agent)} {aid : String}
    {new : Pos} {x : NearbyAgent} :
    x ∈ nearbyList agents aid new ↔
      ∃ e, e ∈ agents ∧ e.1 ≠ aid ∧ manhattan (e.2.x, e.2.y) new ≤ 5 ∧
        x = ⟨e.1, e.2.name, e.2.emoji, manhattan (e.2.x, e.2.y) new⟩ := by
  unfold nearbyList
  rw [List.mem_filterMap]
  constructor
  · rintro ⟨e, he, hf⟩
    by_cases h1 : e.1 ≠ aid
    · rw [if_pos h1] at hf
      by_cases h2 : manhattan (e.2.x, e.2.y) new ≤ 5
      · rw [if_pos h2] at hf
        exact ⟨e, he, h1, h2, (Option.some.injEq _ _ ▸ hf).symm⟩
      · rw [if_neg h2] at hf; cases hf
    · rw [if_neg h1] at hf; cases hf
  · rintro ⟨e, he, h1, h2, hx⟩
    exact ⟨e, he, by rw [if_pos h1, if_pos h2, hx]⟩

/-- C6: a move whose computed destination is blocked signals `Blocked`
with the position, `move_count` and `last_seen` unchanged and the
cached path cleared; a move whose computed destination is free commits
the new position, increments `move_count`, updates `last_seen`, and
returns exactly the other agents within Manhattan distance 5 of the
new position.  The hypothesis that the path-cache keys are distinct is
the dict well-formedness of `agent_paths`. -/
theorem C6_move_blocked_vs_commit :
    ∀ (g : Grid) (w : World) (req : MoveRequest) (now : Rat) (agent : Agent)
      (new : Pos) (paths : List (String × List Pos)),
      lookupA w.agents req.agent_id = some agent →
      (check_rate_limit w req.agent_id "move" now).1 = true →
      compute_step g (check_rate_limit w req.agent_id "move" now).2.agent_paths
        req agent.x agent.y = .step new paths →
      (paths.map Prod.fst).Nodup →
      ((is_blocked g new.1 new.2 = true →
          (move_agent g w req now).1 = .blocked (agent.x, agent.y) ∧
          lookupA (move_agent g w req now).2.agents req.agent_id = some agent ∧
          lookupA (move_agent g w req now).2.agent_paths req.agent_id = none) ∧
       (is_blocked g new.1 new.2 = false →
          ∃ nb,
            (move_agent g w req now).1 = .moved new nb ∧
            lookupA (move_agent g w req now).2.agents req.agent_id =
              some (movedAgent agent new now) ∧
            (∀ x, x ∈ nb ↔
              ∃ e, e ∈ (move_agent g w req now).2.agents ∧ e.1 ≠ req.agent_id ∧
                manhattan (e.2.x, e.2.y) new ≤ 5 ∧
                x = ⟨e.1, e.2.name, e.2.emoji, manhattan (e.2.x, e.2.y) new⟩))) := by
  intro g w req now agent new paths hlk hrl hcs hnd
  constructor
  · intro hb
    rw [move_agent_blocked hlk hrl hcs hb]
    refine ⟨rfl, ?_, ?_⟩
    · rw [check_rate_limit_agents]
      exact hlk
    · exact lookupA_removeA_nodup paths req.agent_id hnd
  · intro hb
    rw [move_agent_moved hlk hrl hcs hb]
    refine ⟨_, rfl, ?_, ?_⟩
    · exact lookupA_updateA_self _ _ _
    · intro x
      exact mem_nearbyList

/-- Concrete agent standing at (4, 4), next to the blocked tile (4, 5),
with a cached path. -/
def agentB : Agent :=
  { agent_id := "b", name := "Snail", emoji := "S", sprite := "Mei_Lin",
    x := 4, y := 4, last_seen := 0, joined_at := 0,
    move_count := 0, message_count := 0, friends := [] }

/-- Concrete world holding only `agentB`, with a cached path for it. -/
def worldB : World :=
  { emptyWorld with agents := [("b", agentB)],
                    agent_paths := [("b", [(9, 9)])] }

theorem worldB_move_allowed : (check_rate_limit worldB "b" "move" 1).1 = true := by
  rw [check_rate_limit_fst_iff]
  have : rlLast worldB "b" "move" = 0 := by simp [rlLast, worldB, emptyWorld, lookupA]
  rw [this, cooldown_move]
  norm_num

/-- Witness for C6 at concrete inputs, exercising both branches: a move
from (4, 4) onto the blocked tile (4, 5) is rejected and clears the
cached path; the move of `worldA` commits and returns no nearby
agents. -/
theorem C6_move_blocked_vs_commit_witness :
    ((move_agent scenarioGrid worldB ⟨"b", "down", none, none⟩ 1).1 =
        MoveResult.blocked (4, 4) ∧
      lookupA (move_agent scenarioGrid worldB ⟨"b", "down", none, none⟩ 1).2.agents
        "b" = some agentB ∧
      lookupA (move_agent scenarioGrid worldB ⟨"b", "down", none, none⟩ 1).2.agent_paths
        "b" = none) ∧
    lookupA (move_agent scenarioGrid worldA ⟨"a", "right", none, none⟩ 1).2.agents
      "a" = some (movedAgent agentA (2, 1) 1) := by
  constructor
  · have hlk : lookupA worldB.agents
        (MoveRequest.mk "b" "down" none none).agent_id = some agentB := rfl
    have hpaths : (check_rate_limit worldB "b" "move" 1).2.agent_paths =
        [("b", [(9, 9)])] := by
      rw [check_rate_limit_paths]; rfl
    have hcs : compute_step scenarioGrid
        (check_rate_limit worldB "b" "move" 1).2.agent_paths
        ⟨"b", "down", none, none⟩ agentB.x agentB.y =
          .step (4, 5) [("b", [(9, 9)])] := by
      rw [hpaths]; decide
    have h6 := C6_move_blocked_vs_commit scenarioGrid worldB ⟨"b", "down", none, none⟩
      1 agentB (4, 5) [("b", [(9, 9)])] hlk worldB_move_allowed hcs (by decide)
    obtain ⟨hfst, hag, hpz⟩ := h6.1 (by decide)
    refine ⟨?_, hag, hpz⟩
    rw [hfst]
    rfl
  · have hlk : lookupA worldA.agents
        (MoveRequest.mk "a" "right" none none).agent_id = some agentA := rfl
    have hpaths : (check_rate_limit worldA "a" "move" 1).2.agent_paths = [] := by
      rw [check_rate_limit_paths]; rfl
    have hcs : compute_step scenarioGrid
        (check_rate_limit worldA "a" "move" 1).2.agent_paths
        ⟨"a", "right", none, none⟩ agentA.x agentA.y = .step (2, 1) [] := by
      rw [hpaths]; decide
    have h6 := C6_move_blocked_vs_commit scenarioGrid worldA ⟨"a", "right", none, none⟩
      1 agentA (2, 1) [] hlk worldA_move_allowed hcs (by decide)
    obtain ⟨nb, hfst, hag, hmem⟩ := h6.2 (by decide)
    exact hag

/-! ## Claim C9: unrecognized direction strings -/

/-- C9: a move by an existing, non-rate-limited agent whose direction
string is none of the four cardinal values and not the target-move
sentinel leaves the position unchanged and reports success, provided
the current tile is not blocked. -/
theorem C9_unrecognized_direction_noop :
    ∀ (g : Grid) (w : World) (req : MoveRequest) (now : Rat) (agent : Agent),
      lookupA w.agents req.agent_id = some agent →
      (check_rate_limit w req.agent_id "move" now).1 = true →
      req.direction ∉ (["up", "down", "left", "right", "to"] : List String) →
      is_blocked g agent.x agent.y = false →
      ∃ nb,
        (move_agent g w req now).1 = .moved (agent.x, agent.y) nb ∧
        ∃ a', lookupA (move_agent g w req now).2.agents req.agent_id = some a' ∧
          a'.x = agent.x ∧ a'.y = agent.y := by
  intro g w req now agent hlk hrl hdir hb
  have hcs : compute_step g (check_rate_limit w req.agent_id "move" now).2.agent_paths
      req agent.x agent.y =
        .step (agent.x, agent.y) (check_rate_limit w req.agent_id "move" now).2.agent_paths :=
    compute_step_noop hdir
  rw [move_agent_moved hlk hrl hcs hb]
  exact ⟨_, rfl, movedAgent agent (agent.x, agent.y) now,
    lookupA_updateA_self _ _ _, rfl, rfl⟩

/-- Witness for C9: the direction string "jump" leaves `agentA` at
(1, 1) and the call reports a committed (unchanged) position. -/
theorem C9_unrecognized_direction_noop_witness :
    ∃ nb,
      (move_agent scenarioGrid worldA ⟨"a", "jump", none, none⟩ 1).1 =
        MoveResult.moved (agentA.x, agentA.y) nb ∧
      ∃ a', lookupA (move_agent scenarioGrid worldA ⟨"a", "jump", none, none⟩ 1).2.agents
          "a" = some a' ∧ a'.x = agentA.x ∧ a'.y = agentA.y :=
  C9_unrecognized_direction_noop scenarioGrid worldA ⟨"a", "jump", none, none⟩ 1
    agentA rfl worldA_move_allowed (by decide) (by decide)

/-! ## Claim C10: rejected calls still consume the cooldown -/

theorem send_chat_tooLong {w : World} {req : ChatRequest} {now : Rat}
    {idm : String} {agent : Agent}
    (hlk : lookupA w.agents req.agent_id = some agent)
    (hrl : (check_rate_limit w req.agent_id "chat" now).1 = true)
    (hlen : 500 < req.message.length) :
    send_chat w req now idm = (.tooLong, (check_rate_limit w req.agent_id "chat" now).2) := by
  simp only [send_chat, hlk]
  rw [if_neg (by rw [hrl]; exact fun h => Bool.true_eq_false ▸ h)]
  rw [if_pos hlen]

theorem send_chat_empty {w : World} {req : ChatRequest} {now : Rat}
    {idm : String} {agent : Agent}
    (hlk : lookupA w.agents req.agent_id = some agent)
    (hrl : (check_rate_limit w req.agent_id "chat" now).1 = true)
    (hlen : ¬(500 < req.message.length))
    (htrim : req.message.trim.length = 0) :
    send_chat w req now idm = (.empty, (check_rate_limit w req.agent_id "chat" now).2) := by
  simp only [send_chat, hlk]
  rw [if_neg (by rw [hrl]; exact fun h => Bool.true_eq_false ▸ h)]
  rw [if_neg hlen, if_pos htrim]

/-- C10: a move rejected as `Blocked` has already consumed the move
cooldown, so a second move by the same agent within the cooldown is
rejected as `RateLimited`; likewise a chat rejected for over-length or
empty text has already advanced the chat cooldown timestamp. -/
theorem C10_rejection_consumes_cooldown :
    (∀ (g : Grid) (w : World) (req req₂ : MoveRequest) (now now₂ : Rat)
        (agent : Agent) (new : Pos) (paths : List (String × List Pos)),
       lookupA w.agents req.agent_id = some agent →
       cooldown "move" ≤ now - rlLast w req.agent_id "move" →
       compute_step g (check_rate_limit w req.agent_id "move" now).2.agent_paths
         req agent.x agent.y = .step new paths →
       is_blocked g new.1 new.2 = true →
       req₂.agent_id = req.agent_id →
       now₂ - now < cooldown "move" →
       (move_agent g w req now).1 = .blocked (agent.x, agent.y) ∧
       rlLast (move_agent g w req now).2 req.agent_id "move" = now ∧
       (move_agent g (move_agent g w req now).2 req₂ now₂).1 = .rateLimited) ∧
    (∀ (w : World) (req : ChatRequest) (now : Rat) (agent : Agent) (idm : String),
       lookupA w.agents req.agent_id = some agent →
       cooldown "chat" ≤ now - rlLast w req.agent_id "chat" →
       ((500 < req.message.length →
          (send_chat w req now idm).1 = .tooLong ∧
          rlLast (send_chat w req now idm).2 req.agent_id "chat" = now) ∧
        (¬(500 < req.message.length) → req.message.trim.length = 0 →
          (send_chat w req now idm).1 = .empty ∧
          rlLast (send_chat w req now idm).2 req.agent_id "chat" = now))) := by
  constructor
  · intro g w req req₂ now now₂ agent new paths hlk hcd hcs hb hid hlt
    have hrl : (check_rate_limit w req.agent_id "move" now).1 = true :=
      check_rate_limit_fst_iff.mpr hcd
    rw [move_agent_blocked hlk hrl hcs hb]
    have hlast : rlLast
        { (check_rate_limit w req.agent_id "move" now).2 with
            agent_paths := removeA paths req.agent_id } req.agent_id "move" = now := by
      show rlLast _ _ _ = now
      unfold rlLast
      rw [show ({ (check_rate_limit w req.agent_id "move" now).2 with
            agent_paths := removeA paths req.agent_id } : World).rate_limits =
          (check_rate_limit w req.agent_id "move" now).2.rate_limits from rfl]
      have := rlLast_allowed hrl
      unfold rlLast at this
      exact this
    refine ⟨rfl, hlast, ?_⟩
    have hlk₂ : lookupA
        ({ (check_rate_limit w req.agent_id "move" now).2 with
            agent_paths := removeA paths req.agent_id } : World).agents
        req₂.agent_id = some agent := by
      rw [show ({ (check_rate_limit w req.agent_id "move" now).2 with
            agent_paths := removeA paths req.agent_id } : World).agents =
          (check_rate_limit w req.agent_id "move" now).2.agents from rfl,
        check_rate_limit_agents, hid]
      exact hlk
    have hrl₂ : (check_rate_limit
        { (check_rate_limit w req.agent_id "move" now).2 with
            agent_paths := removeA paths req.agent_id } req₂.agent_id "move" now₂).1 = false := by
      cases hc : (check_rate_limit
          { (check_rate_limit w req.agent_id "move" now).2 with
              agent_paths := removeA paths req.agent_id } req₂.agent_id "move" now₂).1
      · rfl
      · exfalso
        have := check_rate_limit_fst_iff.mp hc
        rw [hid, hlast] at this
        exact absurd hlt (not_lt.mpr this)
    rw [move_agent_rateLimited hlk₂ hrl₂]
  · intro w req now agent idm hlk hcd
    have hrl : (check_rate_limit w req.agent_id "chat" now).1 = true :=
      check_rate_limit_fst_iff.mpr hcd
    constructor
    · intro hlen
      rw [send_chat_tooLong hlk hrl hlen]
      exact ⟨rfl, rlLast_allowed hrl⟩
    · intro hlen htrim
      rw [send_chat_empty hlk hrl hlen htrim]
      exact ⟨rfl, rlLast_allowed hrl⟩

/-- Chat request with a 501-character message. -/
def longChat : ChatRequest := ⟨"a", String.mk (List.replicate 501 'x'), none⟩

/-- Witness for C10: the blocked move of `worldB` at t=1 makes a second
move at t=1.1 rate limited, and an over-length chat by `agentA` at t=2
still records t=2 as the last allowed chat time. -/
theorem C10_rejection_consumes_cooldown_witness :
    ((move_agent scenarioGrid worldB ⟨"b", "down", none, none⟩ 1).1 =
        MoveResult.blocked (4, 4) ∧
      rlLast (move_agent scenarioGrid worldB ⟨"b", "down", none, none⟩ 1).2 "b" "move" = 1 ∧
      (move_agent scenarioGrid
        (move_agent scenarioGrid worldB ⟨"b", "down", none, none⟩ 1).2
        ⟨"b", "down", none, none⟩ (11/10)).1 = MoveResult.rateLimited) ∧
    ((send_chat worldA longChat 2 "m1").1 = ChatResult.tooLong ∧
      rlLast (send_chat worldA longChat 2 "m1").2 "a" "chat" = 2) := by
  constructor
  · have hlk : lookupA worldB.agents
        (MoveRequest.mk "b" "down" none none).agent_id = some agentB := rfl
    have hpaths : (check_rate_limit worldB "b" "move" 1).2.agent_paths =
        [("b", [(9, 9)])] := by
      rw [check_rate_limit_paths]; rfl
    have hcs : compute_step scenarioGrid
        (check_rate_limit worldB "b" "move" 1).2.agent_paths
        ⟨"b", "down", none, none⟩ agentB.x agentB.y =
          .step (4, 5) [("b", [(9, 9)])] := by
      rw [hpaths]; decide
    have hcd : cooldown "move" ≤ 1 - rlLast worldB "b" "move" := by
      have : rlLast worldB "b" "move" = 0 := by
        simp [rlLast, worldB, emptyWorld, lookupA]
      rw [this, cooldown_move]
      norm_num
    have h10 := C10_rejection_consumes_cooldown.1 scenarioGrid worldB
      ⟨"b", "down", none, none⟩ ⟨"b", "down", none, none⟩ 1 (11/10) agentB (4, 5)
      [("b", [(9, 9)])] hlk hcd hcs (by decide) rfl
      (by rw [cooldown_move]; norm_num)
    exact h10
  · have hlk : lookupA worldA.agents longChat.agent_id = some agentA := rfl
    have hcd : cooldown "chat" ≤ 2 - rlLast worldA "a" "chat" := by
      have : rlLast worldA "a" "chat" = 0 := by
        simp [rlLast, worldA, emptyWorld, lookupA]
      rw [this, cooldown_chat]
      norm_num
    have hlen : 500 < longChat.message.length := by
      show 500 < (String.mk (List.replicate 501 'x')).length
      rw [show (String.mk (List.replicate 501 'x')).length =
        (List.replicate 501 'x').length from rfl, List.length_replicate]
      omega
    have h10 := (C10_rejection_consumes_cooldown.2 worldA longChat 2 agentA "m1"
      hlk hcd).1 hlen
    exact h10

/-! ## Claim C4: what leave actually cleans up -/

/-- Concrete agent used by the C4 scenario. -/
def agentC : Agent :=
  { agent_id := "c", name := "Trout", emoji := "T", sprite := "Ryan_Park",
    x := 7, y := 7, last_seen := 0, joined_at := 0,
    move_count := 3, message_count := 2, friends := [] }

/-- Concrete world holding `agentC` together with its api key, a cached
path and recorded rate-limit times. -/
def worldC : World :=
  { emptyWorld with
      agents := [("c", agentC)]
      api_keys := [("k", "c")]
      agent_paths := [("c", [(1, 1)])]
      rate_limits := [("c", [("move", 5), ("chat", 0)])] }

/-- Counterexample to C4 as stated: leaving removes the agent record,
but the cached path and the rate-limit state survive in the store. -/
theorem C4_leave_counterexample :
    (leave_world worldC "c").1 = LeaveResult.ok "Trout" ∧
    lookupA (leave_world worldC "c").2.agents "c" = none ∧
    lookupA (leave_world worldC "c").2.agent_paths "c" = some [(1, 1)] ∧
    lookupA (leave_world worldC "c").2.rate_limits "c" =
      some [("move", 5), ("chat", 0)] := by
  refine ⟨rfl, rfl, rfl, rfl⟩

/-- C4 as amended: for an id present in the registry, `leave` removes
the agent record and the first api key bound to it, but leaves the
path cache and the rate-limit state untouched; for an absent id it
fails with `NotFound` and changes nothing.  The key-uniqueness
hypothesis is the dict well-formedness of `agents`. -/
theorem C4_leave_removes_record_only :
    ∀ (w : World) (aid : String),
      ((w.agents.map Prod.fst).Nodup →
        ∀ agent, lookupA w.agents aid = some agent →
          leave_world w aid = (.ok agent.name,
            { w with agents := removeA w.agents aid,
                     api_keys := removeFirstValue w.api_keys aid }) ∧
          lookupA (leave_world w aid).2.agents aid = none ∧
          (leave_world w aid).2.agent_paths = w.agent_paths ∧
          (leave_world w aid).2.rate_limits = w.rate_limits) ∧
      (lookupA w.agents aid = none → leave_world w aid = (.notFound, w)) := by
  intro w aid
  constructor
  · intro hnd agent hlk
    have heq : leave_world w aid = (.ok agent.name,
        { w with agents := removeA w.agents aid,
                 api_keys := removeFirstValue w.api_keys aid }) := by
      simp only [leave_world, hlk]
    refine ⟨heq, ?_, ?_, ?_⟩
    · rw [heq]
      exact lookupA_removeA_nodup w.agents aid hnd
    · rw [heq]
    · rw [heq]
  · intro hlk
    simp only [leave_world, hlk]

/-- Witness for the amended C4 at concrete worlds: both the present-id
and the absent-id cases. -/
theorem C4_leave_removes_record_only_witness :
    (leave_world worldC "c" = (LeaveResult.ok agentC.name,
        { worldC with agents := removeA worldC.agents "c",
                      api_keys := removeFirstValue worldC.api_keys "c" }) ∧
      lookupA (leave_world worldC "c").2.agents "c" = none ∧
      (leave_world worldC "c").2.agent_paths = worldC.agent_paths ∧
      (leave_world worldC "c").2.rate_limits = worldC.rate_limits) ∧
    leave_world emptyWorld "z" = (.notFound, emptyWorld) :=
  ⟨(C4_leave_removes_record_only worldC "c").1 (by decide) agentC rfl,
    (C4_leave_removes_record_only emptyWorld "z").2 rfl⟩

/-! ## Claim C5: snapshot round trip -/

/-- C5: restoring a saved snapshot reproduces every agent record (in
particular positions and both counters) and the 50-message
chat-history tail in its original order. -/
theorem C5_snapshot_roundtrip :
    ∀ (w : World) (now : Rat),
      (load_world (save_world w now)).agents = w.agents ∧
      (∀ aid a, lookupA w.agents aid = some a →
        ∃ a', lookupA (load_world (save_world w now)).agents aid = some a' ∧
          a'.x = a.x ∧ a'.y = a.y ∧ a'.move_count = a.move_count ∧
          a'.message_count = a.message_count) ∧
      (load_world (save_world w now)).chat_history <:+ w.chat_history ∧
      (load_world (save_world w now)).chat_history.length =
        min 50 w.chat_history.length := by
  intro w now
  refine ⟨rfl, ?_, ?_, ?_⟩
  · intro aid a h
    exact ⟨a, h, rfl, rfl, rfl, rfl⟩
  · exact List.drop_suffix _ _
  · show (w.chat_history.drop (w.chat_history.length - 50)).length =
      min 50 w.chat_history.length
    rw [List.length_drop]
    omega

/-- Concrete stored chat message. -/
def msg1 : ChatMessage :=
  { id := "m1", from_id := "a", from_name := "Crab", from_emoji := "C",
    message := "hi", to_ := none, timestamp := 1, x := 1, y := 1 }

/-- Concrete world with one agent and one chat message. -/
def worldChat : World := { worldA with chat_history := [msg1] }

/-- Witness for C5 at a concrete world: the round trip keeps the agent
and the single-message history. -/
theorem C5_snapshot_roundtrip_witness :
    (load_world (save_world worldChat 9)).agents = worldChat.agents ∧
    (∃ a', lookupA (load_world (save_world worldChat 9)).agents "a" = some a' ∧
      a'.x = agentA.x ∧ a'.y = agentA.y ∧ a'.move_count = agentA.move_count ∧
      a'.message_count = agentA.message_count) ∧
    (load_world (save_world worldChat 9)).chat_history <:+ worldChat.chat_history ∧
    (load_world (save_world worldChat 9)).chat_history.length =
      min 50 worldChat.chat_history.length := by
  obtain ⟨h1, h2, h3, h4⟩ := C5_snapshot_roundtrip worldChat 9
  exact ⟨h1, h2 "a" agentA rfl, h3, h4⟩

/-! ## Claim C8: join rejections -/

/-- C8: a valid join attempt whose requested name is already held by an
active agent (case-insensitively) fails with `NameTaken` and creates
no agent, and any join once the agent count has reached `MAX_AGENTS`
fails with `WorldFull` and changes nothing. -/
theorem C8_join_nameTaken_worldFull :
    (∀ (w : World) (token : String) (now : Rat) (aid key : String) (spawn : Pos)
        (reg : Registration),
       w.agents.length < MAX_AGENTS →
       token ≠ "" →
       lookupA w.verified_registrations token = some reg →
       (∃ e, e ∈ w.agents ∧ pyLower e.2.name = pyLower reg.name) →
       (join_world w token now aid key spawn).1 = .nameTaken ∧
       (join_world w token now aid key spawn).2.agents = w.agents) ∧
    (∀ (w : World) (token : String) (now : Rat) (aid key : String) (spawn : Pos),
       MAX_AGENTS ≤ w.agents.length →
       join_world w token now aid key spawn = (.worldFull, w)) := by
  constructor
  · rintro w token now aid key spawn reg hlen htoken hreg ⟨e, he, hname⟩
    have hany : ({ w with verified_registrations := removeA w.verified_registrations token } : World).agents.any
        (fun e => pyLower e.2.name = pyLower reg.name) = true := by
      refine List.any_eq_true.mpr ⟨e, he, ?_⟩
      exact decide_eq_true hname
    unfold join_world
    rw [if_neg (not_le.mpr hlen), if_neg htoken]
    simp only [hreg]
    rw [if_pos hany]
    exact ⟨rfl, rfl⟩
  · intro w token now aid key spawn hfull
    unfold join_world
    rw [if_pos hfull]

/-- Registration clashing case-insensitively with the name of
`agentA`. -/
def regCrab : Registration :=
  { name := "crab", description := "", emoji := "C", sprite := "Eddy_Lin",
    twitter_handle := "crabby", verified_at := 0 }

/-- Concrete world holding `agentA` and a verified registration whose
name differs from the active name only in case. -/
def worldD : World :=
  { worldA with verified_registrations := [("tok", regCrab)] }

/-- Concrete world at capacity: 100 agent entries. -/
def worldFull : World :=
  { emptyWorld with agents := List.replicate 100 ("x", agentA) }

/-- Witness for C8 at concrete worlds: the case-insensitive clash is
rejected without creating an agent, and the full world rejects any
join. -/
theorem C8_join_nameTaken_worldFull_witness :
    ((join_world worldD "tok" 1 "id9" "key9" (3, 3)).1 = JoinResult.nameTaken ∧
      (join_world worldD "tok" 1 "id9" "key9" (3, 3)).2.agents = worldD.agents) ∧
    join_world worldFull "tok" 1 "id9" "key9" (3, 3) = (.worldFull, worldFull) :=
  ⟨C8_join_nameTaken_worldFull.1 worldD "tok" 1 "id9" "key9" (3, 3) regCrab
      (by decide) (by decide) rfl ⟨("a", agentA), by decide, by decide⟩,
    C8_join_nameTaken_worldFull.2 worldFull "tok" 1 "id9" "key9" (3, 3) (by decide)⟩

/-! ## Claim C7: blocked-goal substitution -/

theorem reconstructPath_shape (cf : NTrie Pos) :
    ∀ (fuel : Nat) (cur : Pos) (acc : List Pos),
      reconstructPath cf fuel cur acc = acc ∨
      ∃ l, l ≠ [] ∧ reconstructPath cf fuel cur acc = l ++ acc ∧
        l.getLast? = some cur := by
  intro fuel
  induction fuel with
  | zero => intro cur acc; left; rfl
  | succ fuel ih =>
    intro cur acc
    cases hf : cf.find? (posKey cur) with
    | none =>
      left
      rw [reconstructPath, hf]
    | some prev =>
      have hstep : reconstructPath cf (fuel + 1) cur acc =
          reconstructPath cf fuel prev (cur :: acc) := by
        rw [reconstructPath, hf]
      rw [hstep]
      rcases ih prev (cur :: acc) with h | ⟨l, hne, heq, hlast⟩
      · right
        exact ⟨[cur], by simp, h, rfl⟩
      · right
        refine ⟨l ++ [cur], by simp, ?_, ?_⟩
        · rw [heq, List.append_cons]
        · rw [List.getLast?_concat]

theorem astarLoop_getLast (g : Grid) (goal : Pos) (ms : Nat) :
    ∀ (fuel : Nat) (st : AStarState),
      astarLoop g goal ms fuel st = [] ∨
      (astarLoop g goal ms fuel st).getLast? = some goal := by
  intro fuel
  induction fuel with
  | zero => intro st; left; rfl
  | succ fuel ih =>
    intro st
    by_cases hguard : (!(ms.ble st.visitedLen)) = true
    · cases hpop : popMin st.openSet with
      | none =>
        left
        rw [astarLoop, if_pos hguard, hpop]
      | some pr =>
        obtain ⟨e, rest⟩ := pr
        by_cases hvis : (st.visited.find? (posKey e.2.2)).isSome = true
        · have hstep : astarLoop g goal ms (fuel + 1) st =
              astarLoop g goal ms fuel { st with openSet := rest } := by
            rw [astarLoop, if_pos hguard, hpop]
            dsimp only
            rw [if_pos hvis]
          rw [hstep]
          exact ih _
        · by_cases hgoal : posEq e.2.2 goal = true
          · have hstep : astarLoop g goal ms (fuel + 1) st =
                reconstructPath st.cameFrom (st.counter + 1) e.2.2 [] := by
              rw [astarLoop, if_pos hguard, hpop]
              dsimp only
              rw [if_neg hvis, if_pos hgoal]
            rw [hstep]
            have hcur : e.2.2 = goal := posEq_iff.mp hgoal
            rcases reconstructPath_shape st.cameFrom (st.counter + 1) e.2.2 []
              with h | ⟨l, hne, heq, hlast⟩
            · left; exact h
            · right
              rw [heq, List.append_nil, hlast, hcur]
          · have hstep : astarLoop g goal ms (fuel + 1) st =
                astarLoop g goal ms fuel (relaxNeighbors g goal e.2.2
                  { st with openSet := rest,
                            visited := st.visited.insert (posKey e.2.2) (),
                            visitedLen := st.visitedLen + 1 }) := by
              rw [astarLoop, if_pos hguard, hpop]
              dsimp only
              rw [if_neg hvis, if_neg hgoal]
            rw [hstep]
            exact ih _
    · left
      rw [astarLoop, if_neg hguard]

/-- C7: a target-based move whose goal tile is blocked substitutes the
first unblocked tile in the deterministic ring scan; in the spec
scenario (agent at (5,5), goal (5,5) blocked, nearest free tile (6,5))
the resolved path ends at (6,5); when no substitute or no path exists
the result is empty; and in general every non-empty result ends at the
substituted goal. -/
theorem C7_blocked_goal_substitution :
    find_path scenarioGrid 5 5 5 5 500 = [(6, 5)] ∧
    resolveGoal scenarioGrid 5 5 = (6, 5) ∧
    find_path blockedGrid 0 0 2 2 500 = [] ∧
    (∀ (g : Grid) (sx sy gx gy : Int) (cap : Nat),
      find_path g sx sy gx gy cap ≠ [] →
      (find_path g sx sy gx gy cap).getLast? = some (resolveGoal g gx gy)) := by
  refine ⟨by decide, by decide, by decide, ?_⟩
  intro g sx sy gx gy cap hne
  unfold find_path at hne ⊢
  by_cases hstart : posEq (sx, sy) (resolveGoal g gx gy) = true
  · rw [if_pos hstart] at hne
    exact absurd rfl hne
  · rw [if_neg hstart] at hne ⊢
    rcases astarLoop_getLast g (resolveGoal g gx gy) cap (4 * cap + 2) _ with h | h
    · exact absurd h hne
    · exact h

/-- Witness for C7: the non-empty scenario path indeed ends at the
substituted goal (6, 5). -/
theorem C7_blocked_goal_substitution_witness :
    (find_path scenarioGrid 5 5 5 5 500).getLast? =
      some (resolveGoal scenarioGrid 5 5) :=
  C7_blocked_goal_substitution.2.2.2 scenarioGrid 5 5 5 5 500 (by decide)

/-! ## Claim C2: open-grid path lengths under the expansion cap

On the open grid the A* wave must expand every cell of the start-goal
bounding rectangle before it reaches the goal, so a rectangle larger
than the 500-node default cap makes `find_path` give up and return the
empty path: (0,0) to (22,22) spans 23 x 23 = 529 cells and fails, even
though both cells are reachable and their Manhattan distance is 44. -/

/-- Exhaustive check of the open-grid Manhattan-length property for
every pair of distinct cells in the square region `[0, n) x [0, n)`
under the default cap. -/
def c2RegionCheck (n : Nat) : Bool :=
  (List.range n).all fun sx =>
    (List.range n).all fun sy =>
      (List.range n).all fun gx =>
        (List.range n).all fun gy =>
          (sx == gx && sy == gy) ||
          (find_path_default openGrid (sx : Int) (sy : Int)
              (gx : Int) (gy : Int)).length ==
            ((sx : Int) - (gx : Int)).natAbs + ((sy : Int) - (gy : Int)).natAbs

set_option maxRecDepth 2000000 in
set_option maxHeartbeats 20000000 in
/-- Counterexample to C2 as stated: on the open grid the distinct,
reachable pair (0,0) and (22,22) has Manhattan distance 44, yet
`find_path` under the default cap returns the empty path. -/
theorem C2_open_grid_counterexample :
    ((0 : Int), (0 : Int)) ≠ ((22 : Int), (22 : Int)) ∧
    is_blocked openGrid 22 22 = false ∧
    find_path_default openGrid 0 0 22 22 = [] ∧
    heuristic (0, 0) (22, 22) = 44 ∧
    (find_path_default openGrid 0 0 22 22).length ≠ heuristic (0, 0) (22, 22) := by
  have h : find_path_default openGrid 0 0 22 22 = [] := by decide
  refine ⟨by decide, by decide, h, by decide, ?_⟩
  rw [h]
  decide

set_option maxRecDepth 2000000 in
set_option maxHeartbeats 20000000 in
/-- C2 as amended: on the open grid, for every pair of distinct start
and goal cells inside the region `[0, 4) x [0, 4)` (whose bounding
rectangles stay under the default 500-node cap), `find_path` returns a
path whose length equals the Manhattan distance; pairs whose bounding
rectangle exceeds the cap can instead give the empty path, as the
counterexample shows. -/
theorem C2_open_grid_manhattan_region :
    ∀ (sx sy gx gy : Nat), sx < 4 → sy < 4 → gx < 4 → gy < 4 →
      (sx, sy) ≠ (gx, gy) →
      (find_path_default openGrid (sx : Int) (sy : Int) (gx : Int) (gy : Int)).length =
        ((sx : Int) - (gx : Int)).natAbs + ((sy : Int) - (gy : Int)).natAbs := by
  have hall : c2RegionCheck 4 = true := by decide
  unfold c2RegionCheck at hall
  simp only [List.all_eq_true, List.mem_range] at hall
  intro sx sy gx gy hsx hsy hgx hgy hne
  have h := hall sx hsx sy hsy gx hgx gy hgy
  rw [Bool.or_eq_true] at h
  rcases h with h | h
  · exfalso
    rw [Bool.and_eq_true, beq_iff_eq, beq_iff_eq] at h
    exact hne (by rw [h.1, h.2])
  · exact beq_iff_eq.mp h

/-- Witness for the amended C2 at the pair (0,0) to (3,3): the returned
path length is the Manhattan distance 6. -/
theorem C2_open_grid_manhattan_region_witness :
    (find_path_default openGrid ((0 : Nat) : Int) ((0 : Nat) : Int)
        ((3 : Nat) : Int) ((3 : Nat) : Int)).length =
      (((0 : Nat) : Int) - ((3 : Nat) : Int)).natAbs +
        (((0 : Nat) : Int) - ((3 : Nat) : Int)).natAbs :=
  C2_open_grid_manhattan_region 0 0 3 3 (by decide) (by decide) (by decide)
    (by decide) (by decide)

end Shelltown
